import Mathlib

/-!
Verification of the state-tracking and confluence-filtering engine of the
Tradealerts repository.  The definitions below are a shallow embedding of
the Python sources: `state_manager.py` (timeframe state store, history,
hierarchy, bootstrap), `confluence_rules.py` (rule engine) and
`alert_toggle_manager.py` (per-symbol alert-tag toggles).

Modelling conventions:
* SQLite tables become Lean lists of rows; `UNIQUE(symbol, timeframe)` rows
  are looked up with a first-match search exactly as the `SELECT ... WHERE`
  queries do.
* Wall-clock reads (`datetime.now()` in Python, `CURRENT_TIMESTAMP` in SQL)
  are modelled in two layers.  The store records one logical tick per read
  (strictly increasing — it captures only the order of the writes); the
  values the program actually persists are the image of those ticks under a
  map `sec : Nat → Nat` (`coarseStore`) that is monotone but in general not
  injective: `CURRENT_TIMESTAMP` has second resolution, so distinct writes
  may store equal timestamps.  Queries that order by timestamp are
  interpreted over the coarse store, and because SQLite leaves the result
  of `ORDER BY timestamp DESC LIMIT 1` unspecified when several records
  tie, the tie-break is a parameter of the model (`ValidResolver`,
  `latestWith`): theorems about recovery hold for every resolver the query
  is allowed to exhibit.
* Python `str.upper()` / `str.lower()` are modelled character-wise with
  `Char.toUpper` / `Char.toLower` (the alert data is plain ASCII).
* Prices are opaque numeric values that the code stores and copies but
  never computes with; they are modelled by `Int`.
-/

namespace Tradealerts

/-- Embedding of Python `str.upper()` (character-wise ASCII uppercasing). -/
def pyUpper (s : String) : String := ⟨s.data.map Char.toUpper⟩

/-- Embedding of Python `str.lower()` (character-wise ASCII lowercasing). -/
def pyLower (s : String) : String := ⟨s.data.map Char.toLower⟩

/-- The fixed timeframe hierarchy from `state_manager.py`. -/
def TIMEFRAME_HIERARCHY : List String :=
  ["1MIN", "5MIN", "15MIN", "30MIN", "1HR", "2HR", "4HR", "1DAY"]

/-- Embedding of `StateManager.get_next_higher_timeframe`. -/
def get_next_higher_timeframe (current_timeframe : String) : Option String :=
  let c := pyUpper current_timeframe
  if c ∈ TIMEFRAME_HIERARCHY then
    let i := TIMEFRAME_HIERARCHY.indexOf c
    if i < TIMEFRAME_HIERARCHY.length - 1 then TIMEFRAME_HIERARCHY.get? (i + 1)
    else none
  else none

/-- One row of the `timeframe_states` table. -/
structure TimeframeRow where
  symbol : String
  timeframe : String
  ema_status : String
  macd_status : String
  last_ema_update : Option Nat
  last_macd_update : Option Nat
  last_ema_price : Option Int
  last_macd_price : Option Int
  created_at : Nat
  updated_at : Nat
deriving DecidableEq, Repr

/-- One row of the append-only `state_history` table. -/
structure StateChangeRecord where
  symbol : String
  timeframe : String
  crossover_type : String
  old_status : String
  new_status : String
  price : Option Int
  timestamp : Nat
deriving DecidableEq, Repr

/-- The SQLite database of `state_manager.py`: the two tables plus the
logical clock used to model wall-clock reads. -/
structure Store where
  states : List TimeframeRow
  history : List StateChangeRecord
  clock : Nat
deriving DecidableEq, Repr

/-- A freshly initialised database. -/
def emptyStore : Store := ⟨[], [], 0⟩

/-- The `UNIQUE(symbol, timeframe)` key of a state row. -/
def rowKey (r : TimeframeRow) : String × String := (r.symbol, r.timeframe)

/-- Embedding of `SELECT ... FROM timeframe_states WHERE symbol = ? AND
timeframe = ?` (first matching row). -/
def findRow (l : List TimeframeRow) (sym tf : String) : Option TimeframeRow :=
  l.find? (fun r => r.symbol == sym && r.timeframe == tf)

/-- Embedding of `UPDATE timeframe_states SET ... WHERE symbol = ? AND
timeframe = ?` (replaces every row with the given key). -/
def replaceRow (l : List TimeframeRow) (sym tf : String) (newRow : TimeframeRow) :
    List TimeframeRow :=
  l.map (fun r => if r.symbol == sym && r.timeframe == tf then newRow else r)

/-- Embedding of `StateManager.log_state_change`: appends one history row,
stamped with the current logical tick.  The tick only captures the order of
the writes; the second-resolution `CURRENT_TIMESTAMP` value the row carries
on disk is the tick's image under the tick-to-wall-clock map (see
`coarseStore`), so distinct rows may persist equal timestamps. -/
def log_state_change (st : Store) (symbol timeframe crossover_type old_status
    new_status : String) (price : Option Int) : Store :=
  { st with
    history := st.history ++ [{
      symbol := pyUpper symbol
      timeframe := pyUpper timeframe
      crossover_type := pyLower crossover_type
      old_status := old_status
      new_status := new_status
      price := price
      timestamp := st.clock }]
    clock := st.clock + 1 }

/-- The validated part of `StateManager.update_timeframe_state`: the inputs
are already normalized and known valid.  `st.clock` models the
`datetime.now()` bound into the UPDATE/INSERT, `st.clock + 1` the
`CURRENT_TIMESTAMP` evaluated inside that statement, and the history row
appended by `log_state_change` afterwards gets tick `st.clock + 2`. -/
def applyValid (st : Store) (sym tf ct dir : String) (price : Option Int) : Store :=
  match findRow st.states sym tf with
  | some row =>
    let newRow : TimeframeRow :=
      if ct = "ema" then
        { row with ema_status := dir, last_ema_update := some st.clock,
                   last_ema_price := price, updated_at := st.clock + 1 }
      else
        { row with macd_status := dir, last_macd_update := some st.clock,
                   last_macd_price := price, updated_at := st.clock + 1 }
    let old_status := if ct = "ema" then row.ema_status else row.macd_status
    let st1 : Store :=
      { st with states := replaceRow st.states sym tf newRow, clock := st.clock + 2 }
    log_state_change st1 sym tf ct old_status dir price
  | none =>
    let newRow : TimeframeRow :=
      if ct = "ema" then
        { symbol := sym, timeframe := tf, ema_status := dir, macd_status := "UNKNOWN",
          last_ema_update := some st.clock, last_macd_update := none,
          last_ema_price := price, last_macd_price := none,
          created_at := st.clock + 1, updated_at := st.clock + 1 }
      else
        { symbol := sym, timeframe := tf, ema_status := "UNKNOWN", macd_status := dir,
          last_ema_update := none, last_macd_update := some st.clock,
          last_ema_price := none, last_macd_price := price,
          created_at := st.clock + 1, updated_at := st.clock + 1 }
    let st1 : Store :=
      { st with states := st.states ++ [newRow], clock := st.clock + 2 }
    log_state_change st1 sym tf ct "UNKNOWN" dir price

/-- Embedding of `StateManager.update_timeframe_state`: normalizes the
inputs, validates indicator and direction (returning `false` and leaving
the store untouched on failure), then upserts the row and appends one
history record. -/
def update_timeframe_state (st : Store) (symbol timeframe crossover_type
    direction : String) (price : Option Int) : Bool × Store :=
  let sym := pyUpper symbol
  let tf := pyUpper timeframe
  let ct := pyLower crossover_type
  let dir := pyUpper direction
  if ct = "ema" ∨ ct = "macd" then
    if dir = "BULLISH" ∨ dir = "BEARISH" then
      (true, applyValid st sym tf ct dir price)
    else (false, st)
  else (false, st)

/-- The `CASE timeframe ... END` sort rank used by `get_all_states`. -/
def tfRank (tf : String) : Nat :=
  if tf = "1MIN" then 1 else if tf = "5MIN" then 2 else if tf = "15MIN" then 3
  else if tf = "30MIN" then 4 else if tf = "1HR" then 5 else if tf = "2HR" then 6
  else if tf = "4HR" then 7 else if tf = "1DAY" then 8 else 9

/-- Stable sort of state rows by their timeframe rank (the `ORDER BY CASE`
clause of `get_all_states`). -/
def sortByRank (l : List TimeframeRow) : List TimeframeRow :=
  (List.range 10).flatMap (fun k => l.filter (fun r => tfRank r.timeframe == k))

/-- Embedding of `StateManager.get_all_states`: every row of the symbol
(uppercased), ordered by the timeframe hierarchy rank. -/
def get_all_states (st : Store) (symbol : String) : List TimeframeRow :=
  sortByRank (st.states.filter (fun r => r.symbol == pyUpper symbol))

/-- Keeps the history record with the larger timestamp, preferring the
later list entry on ties. -/
def pickLater (acc : Option StateChangeRecord) (r : StateChangeRecord) :
    Option StateChangeRecord :=
  match acc with
  | none => some r
  | some a => if a.timestamp ≤ r.timestamp then some r else some a

/-- The `SELECT ... ORDER BY timestamp DESC LIMIT 1` queries of
`bootstrap_from_history`, read over the tick history, where timestamps are
distinct and the maximum is unique.  Over the persisted second-resolution
timestamps matching records can tie and SQLite does not specify which tied
record the query returns, so there the query is modelled by `latestWith`
with the tie-break left as a parameter (`ValidResolver`); over tie-free
timestamps every valid resolver agrees with this function
(`latestWith_coarse`). -/
def latestFor (h : List StateChangeRecord) (sym tf ct : String) :
    Option StateChangeRecord :=
  (h.filter (fun r => r.symbol == sym && r.timeframe == tf &&
    r.crossover_type == ct)).foldl pickLater none

/-- Adds a pair to the accumulator unless it is already present. -/
def addPair (acc : List (String × String)) (p : String × String) :
    List (String × String) :=
  if p ∈ acc then acc else acc ++ [p]

/-- Embedding of `SELECT DISTINCT symbol, timeframe FROM state_history`
(first-occurrence order). -/
def distinctPairs (h : List StateChangeRecord) : List (String × String) :=
  h.foldl (fun acc r => addPair acc (r.symbol, r.timeframe)) []

/-- One iteration of the `bootstrap_from_history` loop for a single
(symbol, timeframe) pair taken from the history. -/
def bootPairStep (h : List StateChangeRecord) (st : Store) (p : String × String) :
    Store :=
  let emaRow := latestFor h p.1 p.2 "ema"
  let macdRow := latestFor h p.1 p.2 "macd"
  let ema_status := match emaRow with | some r => r.new_status | none => "UNKNOWN"
  let ema_price := match emaRow with | some r => r.price | none => none
  let ema_ts : Option Nat := match emaRow with | some r => some r.timestamp | none => none
  let macd_status := match macdRow with | some r => r.new_status | none => "UNKNOWN"
  let macd_price := match macdRow with | some r => r.price | none => none
  let macd_ts : Option Nat := match macdRow with | some r => some r.timestamp | none => none
  match findRow st.states (pyUpper p.1) (pyUpper p.2) with
  | some row =>
    if emaRow.isSome || macdRow.isSome then
      let newRow : TimeframeRow :=
        { row with
          ema_status := if emaRow.isSome then ema_status else row.ema_status
          last_ema_update := if emaRow.isSome then ema_ts else row.last_ema_update
          last_ema_price := if emaRow.isSome then ema_price else row.last_ema_price
          macd_status := if macdRow.isSome then macd_status else row.macd_status
          last_macd_update := if macdRow.isSome then macd_ts else row.last_macd_update
          last_macd_price := if macdRow.isSome then macd_price else row.last_macd_price
          updated_at := st.clock }
      { st with states := replaceRow st.states (pyUpper p.1) (pyUpper p.2) newRow,
                clock := st.clock + 1 }
    else st
  | none =>
    let newRow : TimeframeRow :=
      { symbol := pyUpper p.1, timeframe := pyUpper p.2,
        ema_status := ema_status, macd_status := macd_status,
        last_ema_update := ema_ts, last_macd_update := macd_ts,
        last_ema_price := ema_price, last_macd_price := macd_price,
        created_at := st.clock, updated_at := st.clock }
    { st with states := st.states ++ [newRow], clock := st.clock + 1 }

/-- Embedding of `StateManager.bootstrap_from_history`: for every distinct
(symbol, timeframe) pair in the history, rebuild the state row from the
most recent EMA and MACD history records.  This is the instance of
`bootstrap_from_history_with` at the newest-preferring resolver
`sqlPickLatest`; over a history with same-key timestamp ties the real
query's choice is unspecified and the parameterized version applies. -/
def bootstrap_from_history (st : Store) : Store :=
  (distinctPairs st.history).foldl (bootPairStep st.history) st

/-- Deletes every `timeframe_states` row while keeping the history (the
disaster scenario that `bootstrap_from_history` recovers from). -/
def wipeStates (st : Store) : Store := { st with states := [] }

/-- The timestamp-free part of a state row: key, indicator statuses and
last prices.  (The wall-clock fields are excluded: they are re-stamped by
recovery.) -/
structure CoreView where
  symbol : String
  timeframe : String
  ema_status : String
  macd_status : String
  last_ema_price : Option Int
  last_macd_price : Option Int
deriving DecidableEq, Repr

/-- Projects a state row to its timestamp-free core. -/
def coreOf (r : TimeframeRow) : CoreView :=
  ⟨r.symbol, r.timeframe, r.ema_status, r.macd_status,
   r.last_ema_price, r.last_macd_price⟩

/-- A structured inbound event, as fed to `update_timeframe_state`. -/
structure EventIn where
  symbol : String
  timeframe : String
  crossover_type : String
  direction : String
  price : Option Int
deriving DecidableEq, Repr

/-- Applies one `update_timeframe_state` call and keeps the store. -/
def applyEvent (st : Store) (e : EventIn) : Store :=
  (update_timeframe_state st e.symbol e.timeframe e.crossover_type
    e.direction e.price).2

/-- The store obtained by replaying a sequence of `update_timeframe_state`
calls from a fresh database. -/
def replay (events : List EventIn) : Store :=
  events.foldl applyEvent emptyStore

/-- The parsed alert dictionary consumed by the confluence engine; every
field is optional exactly as Python `dict.get` access is. -/
structure ParsedEvent where
  symbol : Option String := none
  timeframe : Option String := none
  action : Option String := none
  macd_direction : Option String := none
  ema_direction : Option String := none
  price : Option Int := none
deriving DecidableEq, Repr

/-- A rule trigger (`rule['trigger']`), fields defaulting to the wildcard. -/
structure Trigger where
  timeframe : Option String := none
  crossover_type : Option String := none
  direction : Option String := none
deriving DecidableEq, Repr

/-- A single rule requirement. -/
structure Requirement where
  timeframe : Option String := none
  check : Option String := none
  must_be : Option String := none
deriving DecidableEq, Repr

/-- A confluence rule as stored in `confluence_rules.json`. -/
structure Rule where
  name : Option String := none
  enabled : Option Bool := none
  trigger : Option Trigger := none
  requirements : Option (List Requirement) := none
  action : Option String := none
deriving DecidableEq, Repr

/-- A per-timeframe state as seen by the rule engine snapshot. -/
structure SnapState where
  ema_status : String
  macd_status : String
deriving DecidableEq, Repr

/-- The `current_states` dictionary passed to `evaluate_alert`. -/
abbrev Snapshot := List (String × SnapState)

/-- Dictionary lookup in the snapshot (`timeframe in current_states`). -/
def snapFind (s : Snapshot) (tf : String) : Option SnapState :=
  (s.find? (fun q => q.1 == tf)).map (fun q => q.2)

/-- The alert direction used by the engine:
`parsed_data.get('macd_direction', parsed_data.get('ema_direction', '')).upper()`. -/
def alertDirection (ev : ParsedEvent) : String :=
  pyUpper (ev.macd_direction.getD (ev.ema_direction.getD ""))

/-- The crossover-kind classification at the top of `get_applicable_rules`. -/
def classifyCrossover (action : String) : String :=
  if action = "macd_crossover" then "macd"
  else if action = "moving_average_crossover" then "ema"
  else "unknown"

/-- Embedding of `ConfluenceRulesEngine._matches_trigger`. -/
def matches_trigger (trigger : Trigger) (timeframe crossover_type direction : String) :
    Bool :=
  let ttf := trigger.timeframe.getD "any"
  let tct := trigger.crossover_type.getD "any"
  let tdir := trigger.direction.getD "any"
  (ttf == "any" || ttf == timeframe) &&
  (tct == "any" || tct == crossover_type) &&
  (tdir == "any" || tdir == direction)

/-- Embedding of `ConfluenceRulesEngine.get_applicable_rules`: enabled rules
whose trigger matches the event. -/
def get_applicable_rules (rules : List Rule) (ev : ParsedEvent) : List Rule :=
  let alert_timeframe := pyUpper (ev.timeframe.getD "")
  let crossover_type := classifyCrossover (ev.action.getD "")
  let alert_direction := alertDirection ev
  rules.filter (fun r => r.enabled.getD true &&
    matches_trigger (r.trigger.getD {}) alert_timeframe crossover_type alert_direction)

/-- Embedding of `ConfluenceRulesEngine._check_single_requirement`. -/
def check_single_requirement (req : Requirement) (ev : ParsedEvent)
    (current_states : Snapshot) : Bool :=
  let tf0 := req.timeframe.getD ""
  let check_type := req.check.getD ""
  let must_be := req.must_be.getD ""
  let tfRes : Option String :=
    if tf0 = "next_higher" then
      get_next_higher_timeframe (pyUpper (ev.timeframe.getD ""))
    else some tf0
  match tfRes with
  | none => false
  | some tf =>
    match snapFind current_states tf with
    | none => false
    | some state =>
      let status : Option String :=
        if check_type = "ema_status" then some state.ema_status
        else if check_type = "macd_status" then some state.macd_status
        else none
      match status with
      | none => false
      | some current_status =>
        let required_status :=
          if must_be = "same_direction" then alertDirection ev else pyUpper must_be
        current_status == required_status

/-- Embedding of `ConfluenceRulesEngine._check_rule_requirements`: all
requirements of the rule must hold. -/
def check_rule_requirements (rule : Rule) (ev : ParsedEvent)
    (current_states : Snapshot) : Bool :=
  (rule.requirements.getD []).all
    (fun req => check_single_requirement req ev current_states)

/-- The rule loop of `evaluate_alert`: the first rule whose requirements all
pass decides via its action; if none passes the default is BLOCK. -/
def evalFirst : List Rule → ParsedEvent → Snapshot → Bool
  | [], _, _ => false
  | r :: rest, ev, states =>
    if check_rule_requirements r ev states then (r.action.getD "ALLOW") == "ALLOW"
    else evalFirst rest ev states

/-- Embedding of `ConfluenceRulesEngine.evaluate_alert`. -/
def evaluate_alert (rules : List Rule) (ev : ParsedEvent)
    (current_states : Snapshot) : Bool :=
  let applicable := get_applicable_rules rules ev
  if applicable.isEmpty then true
  else evalFirst applicable ev current_states

/-- The counts reported by `ConfluenceRulesEngine.get_rule_summary`. -/
structure RuleSummary where
  total_rules : Nat
  enabled_rules : Nat
  disabled_rules : Nat
deriving DecidableEq, Repr

/-- Embedding of the counting part of `ConfluenceRulesEngine.get_rule_summary`. -/
def get_rule_summary (rules : List Rule) : RuleSummary :=
  { total_rules := rules.length
    enabled_rules := (rules.filter (fun r => r.enabled.getD true)).length
    disabled_rules := (rules.filter (fun r => !(r.enabled.getD true))).length }

/-- One row of the `alert_toggles` table.  Modelled from the spec: the
table itself is created outside `src/`; the spec describes it as a
per-(symbol, tag) boolean map, so rows are keyed by (symbol, tag). -/
structure ToggleRow where
  symbol : String
  tag : String
  enabled : Bool
deriving DecidableEq, Repr

/-- The `alert_toggles` table. -/
abbrev ToggleStore := List ToggleRow

/-- Embedding of `SELECT enabled FROM alert_toggles WHERE symbol = ? AND
tag = ?` (first matching row). -/
def toggleFind (db : ToggleStore) (sym tag : String) : Option Bool :=
  (db.find? (fun r => r.symbol == sym && r.tag == tag)).map (fun r => r.enabled)

/-- Embedding of `AlertToggleManager.is_enabled`: exact-case lookup under
the uppercased symbol, defaulting to `true` when absent. -/
def is_enabled (db : ToggleStore) (symbol tag : String) : Bool :=
  match toggleFind db (pyUpper symbol) tag with
  | some b => b
  | none => true

/-- Embedding of `INSERT OR REPLACE INTO alert_toggles` under the
per-(symbol, tag) key. -/
def insertOrReplaceToggle (db : ToggleStore) (sym tag : String) (en : Bool) :
    ToggleStore :=
  if (db.find? (fun r => r.symbol == sym && r.tag == tag)).isSome then
    db.map (fun r => if r.symbol == sym && r.tag == tag then
      { r with enabled := en } else r)
  else db ++ [⟨sym, tag, en⟩]

/-- Embedding of Python `str.startswith` (character-list prefix test). -/
def strStartsWith (s p : String) : Bool :=
  p.data.isPrefixOf s.data

/-- The tag case-normalization of `AlertToggleManager.set_many`. -/
def normalizeTag (tag : String) : String :=
  if strStartsWith tag "Call" || strStartsWith tag "Put" then tag else pyUpper tag

/-- Embedding of `AlertToggleManager.set_many`. -/
def set_many (db : ToggleStore) (symbol : String) (updates : List (String × Bool)) :
    ToggleStore :=
  updates.foldl
    (fun d u => insertOrReplaceToggle d (pyUpper symbol) (normalizeTag u.1) u.2) db

/-- The core view of the state row that `bootstrap_from_history` inserts
for a history pair: statuses and prices taken from the latest EMA and MACD
history records of that pair. -/
def insCore (h : List StateChangeRecord) (q : String × String) : CoreView :=
  { symbol := pyUpper q.1
    timeframe := pyUpper q.2
    ema_status := match latestFor h q.1 q.2 "ema" with
      | some r => r.new_status
      | none => "UNKNOWN"
    macd_status := match latestFor h q.1 q.2 "macd" with
      | some r => r.new_status
      | none => "UNKNOWN"
    last_ema_price := match latestFor h q.1 q.2 "ema" with
      | some r => r.price
      | none => none
    last_macd_price := match latestFor h q.1 q.2 "macd" with
      | some r => r.price
      | none => none }

/-- The records matched by the per-key history query of
`bootstrap_from_history` (`WHERE symbol = ? AND timeframe = ? AND
crossover_type = ?`), in table order. -/
def queryMatches (h : List StateChangeRecord) (sym tf ct : String) :
    List StateChangeRecord :=
  h.filter (fun r => r.symbol == sym && r.timeframe == tf &&
    r.crossover_type == ct)

/-- The resolver preferring the latest table entry among the records of
maximal timestamp; `latestFor` is the per-key query under this resolver. -/
def sqlPickLatest (l : List StateChangeRecord) : Option StateChangeRecord :=
  l.foldl pickLater none

/-- Keeps the history record with the larger timestamp, preferring the
earlier list entry on ties. -/
def pickEarlier (acc : Option StateChangeRecord) (r : StateChangeRecord) :
    Option StateChangeRecord :=
  match acc with
  | none => some r
  | some a => if a.timestamp < r.timestamp then some r else some a

/-- The resolver preferring the earliest table entry among the records of
maximal timestamp — another behaviour `ORDER BY timestamp DESC LIMIT 1` is
allowed to exhibit when records tie. -/
def sqlPickEarliest (l : List StateChangeRecord) : Option StateChangeRecord :=
  l.foldl pickEarlier none

/-- Everything `SELECT ... ORDER BY timestamp DESC LIMIT 1` guarantees about
its result, and nothing more: no row on an empty match list, some matching
record of maximal timestamp otherwise.  Which of several records tied at
the maximal timestamp is returned is unspecified, so the resolver is kept
as a parameter of the bootstrap model. -/
def ValidResolver (pick : List StateChangeRecord → Option StateChangeRecord) :
    Prop :=
  pick [] = none ∧
  (∀ l : List StateChangeRecord, l ≠ [] → (pick l).isSome = true) ∧
  (∀ (l : List StateChangeRecord) (a : StateChangeRecord), pick l = some a →
    a ∈ l ∧ ∀ b ∈ l, b.timestamp ≤ a.timestamp)

/-- The per-key `ORDER BY timestamp DESC LIMIT 1` query under an arbitrary
resolver of timestamp ties. -/
def latestWith (pick : List StateChangeRecord → Option StateChangeRecord)
    (h : List StateChangeRecord) (sym tf ct : String) :
    Option StateChangeRecord :=
  pick (queryMatches h sym tf ct)

/-- Replaces a history record's logical tick by its persisted wall-clock
value. -/
def coarseRecord (sec : Nat → Nat) (r : StateChangeRecord) :
    StateChangeRecord :=
  { r with timestamp := sec r.timestamp }

/-- Replaces a state row's logical ticks by their persisted wall-clock
values. -/
def coarseRow (sec : Nat → Nat) (r : TimeframeRow) : TimeframeRow :=
  { r with
      last_ema_update := r.last_ema_update.map sec
      last_macd_update := r.last_macd_update.map sec
      created_at := sec r.created_at
      updated_at := sec r.updated_at }

/-- The history as persisted: every tick replaced by its wall-clock value. -/
def coarseHistory (sec : Nat → Nat) (h : List StateChangeRecord) :
    List StateChangeRecord :=
  h.map (coarseRecord sec)

/-- The store as the program actually persists it: the image of the tick
store under the tick-to-wall-clock map `sec`.  `sec` is monotone (wall
clocks do not run backwards across ordered writes) but in general not
injective: `CURRENT_TIMESTAMP` has second resolution, so writes issued
within one second store equal timestamps. -/
def coarseStore (sec : Nat → Nat) (st : Store) : Store :=
  { states := st.states.map (coarseRow sec)
    history := coarseHistory sec st.history
    clock := sec st.clock }

/-- No two distinct history records of the same (symbol, timeframe,
indicator) persist the same wall-clock timestamp.  When this fails, the
`ORDER BY timestamp DESC LIMIT 1` query ties and may return a stale
record (`bootstrap_tie_restores_stale`). -/
@[reducible] def TieFree (sec : Nat → Nat) (h : List StateChangeRecord) : Prop :=
  ∀ a ∈ h, ∀ b ∈ h,
    a.symbol = b.symbol → a.timeframe = b.timeframe →
    a.crossover_type = b.crossover_type → a ≠ b →
    sec a.timestamp ≠ sec b.timestamp

/-- The state row inserted by the bootstrap loop under resolver `pick` for
a history pair with no existing row (insert branch), at clock tick `c`. -/
def bootInsRowWith (pick : List StateChangeRecord → Option StateChangeRecord)
    (h : List StateChangeRecord) (q : String × String) (c : Nat) :
    TimeframeRow :=
  { symbol := pyUpper q.1
    timeframe := pyUpper q.2
    ema_status := match latestWith pick h q.1 q.2 "ema" with
      | some r => r.new_status
      | none => "UNKNOWN"
    macd_status := match latestWith pick h q.1 q.2 "macd" with
      | some r => r.new_status
      | none => "UNKNOWN"
    last_ema_update := match latestWith pick h q.1 q.2 "ema" with
      | some r => some r.timestamp
      | none => none
    last_macd_update := match latestWith pick h q.1 q.2 "macd" with
      | some r => some r.timestamp
      | none => none
    last_ema_price := match latestWith pick h q.1 q.2 "ema" with
      | some r => r.price
      | none => none
    last_macd_price := match latestWith pick h q.1 q.2 "macd" with
      | some r => r.price
      | none => none
    created_at := c
    updated_at := c }

/-- The state row written by the bootstrap loop under resolver `pick` when
a row for the pair already exists (update branch), at clock tick `c`. -/
def bootUpdRowWith (pick : List StateChangeRecord → Option StateChangeRecord)
    (h : List StateChangeRecord) (q : String × String)
    (row : TimeframeRow) (c : Nat) : TimeframeRow :=
  { row with
      ema_status := if (latestWith pick h q.1 q.2 "ema").isSome then
          (match latestWith pick h q.1 q.2 "ema" with
            | some r => r.new_status
            | none => "UNKNOWN")
        else row.ema_status,
      last_ema_update := if (latestWith pick h q.1 q.2 "ema").isSome then
          (match latestWith pick h q.1 q.2 "ema" with
            | some r => some r.timestamp
            | none => none)
        else row.last_ema_update,
      last_ema_price := if (latestWith pick h q.1 q.2 "ema").isSome then
          (match latestWith pick h q.1 q.2 "ema" with
            | some r => r.price
            | none => none)
        else row.last_ema_price,
      macd_status := if (latestWith pick h q.1 q.2 "macd").isSome then
          (match latestWith pick h q.1 q.2 "macd" with
            | some r => r.new_status
            | none => "UNKNOWN")
        else row.macd_status,
      last_macd_update := if (latestWith pick h q.1 q.2 "macd").isSome then
          (match latestWith pick h q.1 q.2 "macd" with
            | some r => some r.timestamp
            | none => none)
        else row.last_macd_update,
      last_macd_price := if (latestWith pick h q.1 q.2 "macd").isSome then
          (match latestWith pick h q.1 q.2 "macd" with
            | some r => r.price
            | none => none)
        else row.last_macd_price,
      updated_at := c }

/-- One iteration of the `bootstrap_from_history` loop under resolver
`pick` for a single (symbol, timeframe) pair taken from the history. -/
def bootPairStepWith (pick : List StateChangeRecord → Option StateChangeRecord)
    (h : List StateChangeRecord) (st : Store) (p : String × String) : Store :=
  match findRow st.states (pyUpper p.1) (pyUpper p.2) with
  | some row =>
    if (latestWith pick h p.1 p.2 "ema").isSome ||
        (latestWith pick h p.1 p.2 "macd").isSome then
      { st with
          states := replaceRow st.states (pyUpper p.1) (pyUpper p.2)
            (bootUpdRowWith pick h p row st.clock)
          clock := st.clock + 1 }
    else st
  | none =>
    { st with states := st.states ++ [bootInsRowWith pick h p st.clock]
              clock := st.clock + 1 }

/-- `StateManager.bootstrap_from_history` over a persisted store, with the
query's tie-break behaviour as a parameter: for every distinct (symbol,
timeframe) pair in the history, rebuild the state row from records the
per-key `ORDER BY timestamp DESC LIMIT 1` query may return. -/
def bootstrap_from_history_with
    (pick : List StateChangeRecord → Option StateChangeRecord)
    (st : Store) : Store :=
  (distinctPairs st.history).foldl (bootPairStepWith pick st.history) st

/-- The per-row recovery relation: a state row agrees with the latest EMA
and MACD history records for its key. -/
def RowMatch (h : List StateChangeRecord) (r : TimeframeRow) : Prop :=
  (match latestFor h r.symbol r.timeframe "ema" with
   | none => r.ema_status = "UNKNOWN" ∧ r.last_ema_price = none
   | some e => e.new_status = r.ema_status ∧ e.price = r.last_ema_price) ∧
  (match latestFor h r.symbol r.timeframe "macd" with
   | none => r.macd_status = "UNKNOWN" ∧ r.last_macd_price = none
   | some m => m.new_status = r.macd_status ∧ m.price = r.last_macd_price)

/-- The store invariant established by replaying `update_timeframe_state`
calls from an empty database. -/
structure Inv (st : Store) : Prop where
  hist_upper : ∀ r ∈ st.history,
    r.symbol = pyUpper r.symbol ∧ r.timeframe = pyUpper r.timeframe
  hist_clock : ∀ r ∈ st.history, r.timestamp < st.clock
  rows_upper : ∀ r ∈ st.states,
    r.symbol = pyUpper r.symbol ∧ r.timeframe = pyUpper r.timeframe
  pairs_eq : distinctPairs st.history = st.states.map rowKey
  rows_match : ∀ r ∈ st.states, RowMatch st.history r

/-! ### Basic facts about the case-normalization helpers -/

theorem upperChar_idem (c : Char) : c.toUpper.toUpper = c.toUpper := by
  by_cases h : c.toNat ≥ 97 ∧ c.toNat ≤ 122
  · have e : c.toUpper = Char.ofNat (c.toNat - 32) := by
      simp only [Char.toUpper]
      rw [if_pos h]
    rw [e]
    obtain ⟨h1, h2⟩ := h
    generalize hg : c.toNat = n at h1 h2
    interval_cases n <;> decide
  · have e : c.toUpper = c := by
      simp only [Char.toUpper]
      rw [if_neg h]
    rw [e, e]

theorem pyUpper_idem (s : String) : pyUpper (pyUpper s) = pyUpper s := by
  simp only [pyUpper, List.map_map]
  congr 1
  exact List.map_congr_left (fun a _ => upperChar_idem a)

/-! ### Claim C8: the timeframe hierarchy lookup -/

/-- C8: `get_next_higher_timeframe` uppercases its input; it returns `none`
when the uppercased input is not in the hierarchy or is the maximum
`"1DAY"`, and otherwise the immediately following hierarchy element; in
particular `5MIN ↦ 15MIN`, `1DAY ↦ none` and `bogus ↦ none`. -/
theorem claim_C8_next_higher_timeframe :
    (∀ tf, pyUpper tf ∉ TIMEFRAME_HIERARCHY → get_next_higher_timeframe tf = none) ∧
    (∀ tf, pyUpper tf = "1DAY" → get_next_higher_timeframe tf = none) ∧
    (∀ tf i, i + 1 < TIMEFRAME_HIERARCHY.length →
      pyUpper tf = TIMEFRAME_HIERARCHY.getD i "" →
      get_next_higher_timeframe tf = TIMEFRAME_HIERARCHY.get? (i + 1)) ∧
    get_next_higher_timeframe "5MIN" = some "15MIN" ∧
    get_next_higher_timeframe "1DAY" = none ∧
    get_next_higher_timeframe "bogus" = none := by
  refine ⟨?_, ?_, ?_, by decide, by decide, by decide⟩
  · intro tf h
    simp only [get_next_higher_timeframe]
    rw [if_neg h]
  · intro tf h
    simp only [get_next_higher_timeframe, h]
    decide
  · intro tf i hi h
    have hi7 : i < 7 := by simp [TIMEFRAME_HIERARCHY] at hi; omega
    interval_cases i <;> simp only [TIMEFRAME_HIERARCHY, List.getD] at h <;>
      simp only [get_next_higher_timeframe, h] <;> decide

/-- Witness for C8: the hypotheses are satisfiable, e.g. at `"30min"`. -/
theorem claim_C8_witness : get_next_higher_timeframe "30min" = some "1HR" := by
  have h := claim_C8_next_higher_timeframe.2.2.1 "30min" 3 (by decide) (by decide)
  simpa using h

/-! ### Claim C9: validation failures leave the store untouched -/

theorem update_invalid (st : Store)
    (symbol timeframe crossover_type direction : String) (price : Option Int)
    (h : ¬ (pyLower crossover_type = "ema" ∨ pyLower crossover_type = "macd") ∨
         ¬ (pyUpper direction = "BULLISH" ∨ pyUpper direction = "BEARISH")) :
    update_timeframe_state st symbol timeframe crossover_type direction price
      = (false, st) := by
  simp only [update_timeframe_state]
  rcases h with h | h
  · rw [if_neg h]
  · by_cases h1 : pyLower crossover_type = "ema" ∨ pyLower crossover_type = "macd"
    · rw [if_pos h1, if_neg h]
    · rw [if_neg h1]

/-- C9: when the lowercased indicator is not `ema`/`macd` or the uppercased
direction is not `BULLISH`/`BEARISH`, `update_timeframe_state` returns
`false` and the store is returned unchanged — no history record and no row
mutation. -/
theorem claim_C9_validation_rejects (st : Store)
    (symbol timeframe crossover_type direction : String) (price : Option Int)
    (h : ¬ (pyLower crossover_type = "ema" ∨ pyLower crossover_type = "macd") ∨
         ¬ (pyUpper direction = "BULLISH" ∨ pyUpper direction = "BEARISH")) :
    update_timeframe_state st symbol timeframe crossover_type direction price
      = (false, st) :=
  update_invalid st symbol timeframe crossover_type direction price h

/-- Witness for C9: a rejected indicator value on a fresh store. -/
theorem claim_C9_witness :
    update_timeframe_state emptyStore "SPY" "5MIN" "sma" "bullish" none
      = (false, emptyStore) :=
  claim_C9_validation_rejects emptyStore "SPY" "5MIN" "sma" "bullish" none
    (Or.inl (by decide))

/-! ### Claim C6: no applicable rule means default ALLOW -/

/-- C6: when no enabled rule's trigger matches the event — in particular
when the rule list is empty — `evaluate_alert` returns `true`. -/
theorem claim_C6_fail_open (rules : List Rule) (ev : ParsedEvent)
    (states : Snapshot) :
    evaluate_alert [] ev states = true ∧
    (get_applicable_rules rules ev = [] → evaluate_alert rules ev states = true) := by
  constructor
  · rfl
  · intro h
    simp [evaluate_alert, h]

/-- Witness for C6: a disabled rule yields no applicable rules, and the
alert is allowed. -/
theorem claim_C6_witness :
    evaluate_alert
      [{ enabled := some false,
         trigger := some { timeframe := some "any", crossover_type := some "any",
                           direction := some "any" },
         requirements := some [], action := some "BLOCK" }]
      { symbol := some "SPY", timeframe := some "5MIN",
        action := some "moving_average_crossover", ema_direction := some "bullish" }
      [] = true :=
  (claim_C6_fail_open _ _ _).2 (by decide)

/-! ### Claim C2: classification of the event's crossover kind -/

/-- Counterexample to C2: an event whose `action` field is
`"ema_crossover"` is classified `"unknown"`, so an enabled rule whose
trigger has `crossover_type = "ema"` (timeframe and direction wildcarded)
does not match it: the applicable-rule list is empty. -/
theorem claim_C2_counterexample :
    get_applicable_rules
      [{ name := some "EMA rule", enabled := some true,
         trigger := some { timeframe := some "any", crossover_type := some "ema",
                           direction := some "any" },
         requirements := some [], action := some "ALLOW" }]
      { symbol := some "SPY", timeframe := some "5MIN",
        action := some "ema_crossover", ema_direction := some "bullish" } = [] ∧
    classifyCrossover "ema_crossover" = "unknown" := by
  decide

/-- C2 (amended): the engine classifies the action value
`"moving_average_crossover"` — not `"ema_crossover"` — as kind `"ema"`;
an enabled rule whose trigger has `crossover_type = "ema"` with the other
trigger fields wildcarded matches such an event, while `"ema_crossover"`
is classified `"unknown"`. -/
theorem claim_C2_classification (rules : List Rule) (ev : ParsedEvent) (r : Rule)
    (hact : ev.action = some "moving_average_crossover")
    (hr : r ∈ rules) (hen : r.enabled.getD true = true)
    (htr : r.trigger = some { timeframe := some "any", crossover_type := some "ema",
                              direction := some "any" }) :
    classifyCrossover (ev.action.getD "") = "ema" ∧
    r ∈ get_applicable_rules rules ev ∧
    classifyCrossover "ema_crossover" = "unknown" := by
  refine ⟨?_, ?_, by decide⟩
  · rw [hact]
    decide
  · apply List.mem_filter.mpr
    refine ⟨hr, ?_⟩
    rw [hen, htr, hact]
    simp [matches_trigger, classifyCrossover]

/-- Witness for C2: a concrete `moving_average_crossover` event matching a
concrete wildcarded EMA rule. -/
theorem claim_C2_witness :
    ({ name := some "EMA rule", enabled := some true,
       trigger := some { timeframe := some "any", crossover_type := some "ema",
                         direction := some "any" },
       requirements := some [], action := some "ALLOW" } : Rule) ∈
      get_applicable_rules
        [{ name := some "EMA rule", enabled := some true,
           trigger := some { timeframe := some "any", crossover_type := some "ema",
                             direction := some "any" },
           requirements := some [], action := some "ALLOW" }]
        { symbol := some "SPY", timeframe := some "5MIN",
          action := some "moving_average_crossover",
          ema_direction := some "bullish" } := by
  have h := claim_C2_classification
    [{ name := some "EMA rule", enabled := some true,
       trigger := some { timeframe := some "any", crossover_type := some "ema",
                         direction := some "any" },
       requirements := some [], action := some "ALLOW" }]
    { symbol := some "SPY", timeframe := some "5MIN",
      action := some "moving_average_crossover", ema_direction := some "bullish" }
    { name := some "EMA rule", enabled := some true,
      trigger := some { timeframe := some "any", crossover_type := some "ema",
                        direction := some "any" },
      requirements := some [], action := some "ALLOW" }
    rfl (by decide) (by decide) rfl
  exact h.2.1

/-! ### Claim C3: toggle lookup order -/

/-- Counterexample to C3: setting the toggle `CALL5 := false` for SPY (the
tag is stored uppercased) and then querying the lowercase tag `"call5"`
returns `true`, although the uppercased form of the tag is configured
`false` — the claimed uppercase-fallback lookup does not exist. -/
theorem claim_C3_counterexample :
    is_enabled (set_many [] "SPY" [("CALL5", false)]) "SPY" "call5" = true ∧
    toggleFind (set_many [] "SPY" [("CALL5", false)]) (pyUpper "SPY")
      (pyUpper "call5") = some false := by
  decide

/-- C3 (amended): `is_enabled` returns the stored boolean for the
exact-case tag when one is configured for the (uppercased) symbol, and
returns `true` otherwise; there is no uppercase-fallback lookup. -/
theorem claim_C3_is_enabled_lookup (db : ToggleStore) (symbol tag : String) :
    (∀ b, toggleFind db (pyUpper symbol) tag = some b →
      is_enabled db symbol tag = b) ∧
    (toggleFind db (pyUpper symbol) tag = none → is_enabled db symbol tag = true) := by
  constructor
  · intro b h
    simp [is_enabled, h]
  · intro h
    simp [is_enabled, h]

/-- Witness for C3: an exact-case configured tag is returned as stored, on
a concrete store. -/
theorem claim_C3_witness :
    is_enabled [⟨"SPY", "C5", false⟩] "spy" "C5" = false :=
  (claim_C3_is_enabled_lookup [⟨"SPY", "C5", false⟩] "spy" "C5").1 false (by decide)

/-! ### Claim C10: rules without an enabled field default to enabled -/

/-- C10: a rule whose `enabled` field is absent is treated as enabled:
`get_applicable_rules` keeps every matching rule whose `enabled` field is
not explicitly `false`, and `get_rule_summary` counts a rule without the
field among the enabled rules. -/
theorem claim_C10_enabled_default (rules : List Rule) (ev : ParsedEvent)
    (r : Rule) (rest : List Rule) (hnone : r.enabled = none) :
    (∀ r2 ∈ rules, r2.enabled ≠ some false →
      matches_trigger (r2.trigger.getD {}) (pyUpper (ev.timeframe.getD ""))
        (classifyCrossover (ev.action.getD "")) (alertDirection ev) = true →
      r2 ∈ get_applicable_rules rules ev) ∧
    (get_rule_summary (r :: rest)).enabled_rules
      = (get_rule_summary rest).enabled_rules + 1 := by
  constructor
  · intro r2 hmem hnf hmatch
    apply List.mem_filter.mpr
    refine ⟨hmem, ?_⟩
    have hen : r2.enabled.getD true = true := by
      cases he : r2.enabled with
      | none => rfl
      | some b =>
        cases b with
        | false => exact absurd he hnf
        | true => rfl
    rw [hen, hmatch]
    rfl
  · simp [get_rule_summary, hnone, List.filter_cons, Nat.add_comm]

/-- Witness for C10: a rule with no `enabled` field is applicable and
counted as enabled. -/
theorem claim_C10_witness :
    ({ trigger := some { timeframe := some "any", crossover_type := some "any",
                         direction := some "any" },
       requirements := some [], action := some "ALLOW" } : Rule) ∈
      get_applicable_rules
        [{ trigger := some { timeframe := some "any", crossover_type := some "any",
                             direction := some "any" },
           requirements := some [], action := some "ALLOW" }]
        { symbol := some "SPY", timeframe := some "5MIN",
          action := some "moving_average_crossover",
          ema_direction := some "bullish" } ∧
    (get_rule_summary
      [{ trigger := some { timeframe := some "any", crossover_type := some "any",
                           direction := some "any" },
         requirements := some [], action := some "ALLOW" }]).enabled_rules = 1 := by
  constructor
  · exact (claim_C10_enabled_default _ _
      { trigger := some { timeframe := some "any", crossover_type := some "any",
                          direction := some "any" },
        requirements := some [], action := some "ALLOW" } [] rfl).1 _
      (List.mem_singleton.mpr rfl) (by decide) (by decide)
  · exact (claim_C10_enabled_default []
      ({ } : ParsedEvent)
      { trigger := some { timeframe := some "any", crossover_type := some "any",
                          direction := some "any" },
        requirements := some [], action := some "ALLOW" } [] rfl).2

/-! ### Claim C5: applicable but unsatisfied rules mean default BLOCK -/

theorem evalFirst_eq_false (l : List Rule) (ev : ParsedEvent) (states : Snapshot)
    (h : ∀ r ∈ l, check_rule_requirements r ev states = false) :
    evalFirst l ev states = false := by
  induction l with
  | nil => rfl
  | cons r rest ih =>
    simp only [evalFirst, h r (List.mem_cons_self r rest)]
    simp only [Bool.false_eq_true, if_false]
    exact ih (fun x hx => h x (List.mem_cons_of_mem r hx))

theorem check_rule_requirements_eq_false (rule : Rule) (ev : ParsedEvent)
    (states : Snapshot) (req : Requirement)
    (h1 : req ∈ rule.requirements.getD [])
    (h2 : check_single_requirement req ev states = false) :
    check_rule_requirements rule ev states = false := by
  simp only [check_rule_requirements]
  rw [Bool.eq_false_iff]
  intro hall
  rw [List.all_eq_true] at hall
  have h3 := hall req h1
  rw [h2] at h3
  cases h3

/-- C5: if at least one enabled rule's trigger matches the event but every
matching rule has some requirement that evaluates to `false` (requirements
are checked against the snapshot by `check_single_requirement`), then
`evaluate_alert` returns `false` — the default is BLOCK. -/
theorem claim_C5_default_block (rules : List Rule) (ev : ParsedEvent)
    (states : Snapshot)
    (hne : get_applicable_rules rules ev ≠ [])
    (hfail : ∀ r ∈ get_applicable_rules rules ev,
      ∃ req ∈ r.requirements.getD [],
        check_single_requirement req ev states = false) :
    evaluate_alert rules ev states = false := by
  simp only [evaluate_alert]
  rw [if_neg (by simpa [List.isEmpty_iff] using hne)]
  apply evalFirst_eq_false
  intro r hr
  obtain ⟨req, hreq, hfalse⟩ := hfail r hr
  exact check_rule_requirements_eq_false r ev states req hreq hfalse

/-- Witness for C5: one enabled matching rule whose single requirement
fails against an empty snapshot blocks the alert. -/
theorem claim_C5_witness :
    evaluate_alert
      [{ enabled := some true,
         trigger := some { timeframe := some "any", crossover_type := some "ema",
                           direction := some "any" },
         requirements := some [{ timeframe := some "5MIN",
                                 check := some "ema_status",
                                 must_be := some "BULLISH" }],
         action := some "ALLOW" }]
      { symbol := some "SPY", timeframe := some "5MIN",
        action := some "moving_average_crossover", ema_direction := some "bullish" }
      [] = false :=
  claim_C5_default_block _ _ _ (by decide) (by decide)

/-! ### Row-level helper lemmas for the state store -/

theorem findRow_some (l : List TimeframeRow) (s t : String) (r : TimeframeRow)
    (h : findRow l s t = some r) : r ∈ l ∧ r.symbol = s ∧ r.timeframe = t := by
  refine ⟨List.mem_of_find?_eq_some h, ?_⟩
  have h2 := List.find?_some h
  simp only [Bool.and_eq_true, beq_iff_eq] at h2
  exact h2

theorem findRow_replaceRow (l : List TimeframeRow) (s t : String) (n : TimeframeRow)
    (hs : n.symbol = s) (ht : n.timeframe = t) :
    findRow (replaceRow l s t n) s t = (findRow l s t).map (fun _ => n) := by
  induction l with
  | nil => rfl
  | cons r rest ih =>
    simp only [replaceRow, List.map_cons, findRow] at *
    by_cases hp : (r.symbol == s && r.timeframe == t) = true
    · rw [if_pos hp]
      have hn : (n.symbol == s && n.timeframe == t) = true := by simp [hs, ht]
      rw [List.find?_cons, List.find?_cons, hn, hp]
      rfl
    · rw [if_neg hp]
      rw [Bool.not_eq_true] at hp
      rw [List.find?_cons, List.find?_cons, hp]
      exact ih

theorem replaceRow_filter_ne (l : List TimeframeRow) (s t : String) (n : TimeframeRow)
    (hs : n.symbol = s) (ht : n.timeframe = t) :
    (replaceRow l s t n).filter (fun r => !(r.symbol == s && r.timeframe == t))
      = l.filter (fun r => !(r.symbol == s && r.timeframe == t)) := by
  induction l with
  | nil => rfl
  | cons r rest ih =>
    simp only [replaceRow, List.map_cons, List.filter_cons] at *
    by_cases hp : (r.symbol == s && r.timeframe == t) = true
    · rw [if_pos hp]
      have hn : (n.symbol == s && n.timeframe == t) = true := by simp [hs, ht]
      simp only [hn, hp, Bool.not_true, Bool.false_eq_true, if_false]
      exact ih
    · rw [if_neg hp]
      simp only [Bool.not_eq_true] at hp
      simp only [hp, Bool.not_false, if_true]
      rw [ih]

theorem update_ema_found (st : Store) (symbol timeframe direction : String)
    (price : Option Int) (row : TimeframeRow)
    (hdir : pyUpper direction = "BULLISH" ∨ pyUpper direction = "BEARISH")
    (hfound : findRow st.states (pyUpper symbol) (pyUpper timeframe) = some row) :
    update_timeframe_state st symbol timeframe "ema" direction price =
      (true,
        { states := replaceRow st.states (pyUpper symbol) (pyUpper timeframe)
            { row with ema_status := pyUpper direction,
                       last_ema_update := some st.clock,
                       last_ema_price := price, updated_at := st.clock + 1 }
          history := st.history ++ [{
            symbol := pyUpper symbol, timeframe := pyUpper timeframe,
            crossover_type := "ema", old_status := row.ema_status,
            new_status := pyUpper direction, price := price,
            timestamp := st.clock + 2 }]
          clock := st.clock + 3 }) := by
  simp only [update_timeframe_state]
  have hct : pyLower "ema" = "ema" := by decide
  rw [hct, if_pos (Or.inl rfl), if_pos hdir]
  simp only [applyValid, hfound]
  simp [log_state_change, pyUpper_idem, hct, Nat.add_assoc]

theorem update_macd_found (st : Store) (symbol timeframe direction : String)
    (price : Option Int) (row : TimeframeRow)
    (hdir : pyUpper direction = "BULLISH" ∨ pyUpper direction = "BEARISH")
    (hfound : findRow st.states (pyUpper symbol) (pyUpper timeframe) = some row) :
    update_timeframe_state st symbol timeframe "macd" direction price =
      (true,
        { states := replaceRow st.states (pyUpper symbol) (pyUpper timeframe)
            { row with macd_status := pyUpper direction,
                       last_macd_update := some st.clock,
                       last_macd_price := price, updated_at := st.clock + 1 }
          history := st.history ++ [{
            symbol := pyUpper symbol, timeframe := pyUpper timeframe,
            crossover_type := "macd", old_status := row.macd_status,
            new_status := pyUpper direction, price := price,
            timestamp := st.clock + 2 }]
          clock := st.clock + 3 }) := by
  simp only [update_timeframe_state]
  have hct : pyLower "macd" = "macd" := by decide
  rw [hct, if_pos (Or.inr rfl), if_pos hdir]
  simp only [applyValid, hfound]
  simp [log_state_change, pyUpper_idem, hct, Nat.add_assoc]

/-! ### Claim C7: updating one indicator leaves the other untouched -/

/-- C7: for an existing (symbol, timeframe) row, a successful
`update_timeframe_state` with indicator `ema` leaves the row's
`macd_status`, `last_macd_update` and `last_macd_price` unchanged, and a
successful call with indicator `macd` leaves the EMA fields unchanged;
rows of every other (symbol, timeframe) key are unchanged in either case. -/
theorem claim_C7_indicator_independence (st : Store)
    (symbol timeframe direction : String) (price : Option Int)
    (row : TimeframeRow)
    (hfound : findRow st.states (pyUpper symbol) (pyUpper timeframe) = some row) :
    ((update_timeframe_state st symbol timeframe "ema" direction price).1 = true →
      (∃ row1,
        findRow ((update_timeframe_state st symbol timeframe "ema" direction
            price).2).states (pyUpper symbol) (pyUpper timeframe) = some row1 ∧
        row1.macd_status = row.macd_status ∧
        row1.last_macd_update = row.last_macd_update ∧
        row1.last_macd_price = row.last_macd_price) ∧
      ((update_timeframe_state st symbol timeframe "ema" direction
          price).2).states.filter
          (fun r => !(r.symbol == pyUpper symbol && r.timeframe == pyUpper timeframe))
        = st.states.filter
          (fun r => !(r.symbol == pyUpper symbol && r.timeframe == pyUpper timeframe))) ∧
    ((update_timeframe_state st symbol timeframe "macd" direction price).1 = true →
      (∃ row1,
        findRow ((update_timeframe_state st symbol timeframe "macd" direction
            price).2).states (pyUpper symbol) (pyUpper timeframe) = some row1 ∧
        row1.ema_status = row.ema_status ∧
        row1.last_ema_update = row.last_ema_update ∧
        row1.last_ema_price = row.last_ema_price) ∧
      ((update_timeframe_state st symbol timeframe "macd" direction
          price).2).states.filter
          (fun r => !(r.symbol == pyUpper symbol && r.timeframe == pyUpper timeframe))
        = st.states.filter
          (fun r => !(r.symbol == pyUpper symbol && r.timeframe == pyUpper timeframe))) := by
  have hkey := (findRow_some _ _ _ _ hfound).2
  constructor
  · intro hok
    by_cases hdir : pyUpper direction = "BULLISH" ∨ pyUpper direction = "BEARISH"
    · rw [update_ema_found st symbol timeframe direction price row hdir hfound] at hok ⊢
      have hfr := findRow_replaceRow st.states (pyUpper symbol) (pyUpper timeframe)
        { row with ema_status := pyUpper direction, last_ema_update := some st.clock,
                   last_ema_price := price, updated_at := st.clock + 1 } hkey.1 hkey.2
      constructor
      · apply Exists.intro
        constructor
        · rw [hfr, hfound]
          exact rfl
        · exact ⟨rfl, rfl, rfl⟩
      · exact replaceRow_filter_ne _ _ _ _ hkey.1 hkey.2
    · rw [update_invalid st symbol timeframe "ema" direction price (Or.inr hdir)] at hok
      cases hok
  · intro hok
    by_cases hdir : pyUpper direction = "BULLISH" ∨ pyUpper direction = "BEARISH"
    · rw [update_macd_found st symbol timeframe direction price row hdir hfound] at hok ⊢
      have hfr := findRow_replaceRow st.states (pyUpper symbol) (pyUpper timeframe)
        { row with macd_status := pyUpper direction, last_macd_update := some st.clock,
                   last_macd_price := price, updated_at := st.clock + 1 } hkey.1 hkey.2
      constructor
      · apply Exists.intro
        constructor
        · rw [hfr, hfound]
          exact rfl
        · exact ⟨rfl, rfl, rfl⟩
      · exact replaceRow_filter_ne _ _ _ _ hkey.1 hkey.2
    · rw [update_invalid st symbol timeframe "macd" direction price (Or.inr hdir)] at hok
      cases hok

/-- Witness for C7: a concrete MACD update on an existing row leaves the
EMA fields of the row intact. -/
theorem claim_C7_witness :
    ∃ row1,
      findRow ((update_timeframe_state
          { states := [⟨"SPY", "5MIN", "BULLISH", "UNKNOWN", some 0, none,
                        some 450, none, 1, 1⟩],
            history := [], clock := 2 }
          "SPY" "5MIN" "macd" "bearish" (some 451)).2).states
        (pyUpper "SPY") (pyUpper "5MIN") = some row1 ∧
      row1.ema_status = "BULLISH" ∧
      row1.last_ema_update = some 0 ∧
      row1.last_ema_price = some 450 := by
  have h := (claim_C7_indicator_independence
    { states := [⟨"SPY", "5MIN", "BULLISH", "UNKNOWN", some 0, none,
                  some 450, none, 1, 1⟩],
      history := [], clock := 2 }
    "SPY" "5MIN" "bearish" (some 451)
    ⟨"SPY", "5MIN", "BULLISH", "UNKNOWN", some 0, none, some 450, none, 1, 1⟩
    (by decide)).2 (by decide)
  obtain ⟨⟨row1, hfind, he1, he2, he3⟩, _⟩ := h
  exact ⟨row1, hfind, he1, he2, he3⟩

/-! ### Claim C1: recordEvent performs no de-duplication -/

/-- Counterexample to C1: two identical successful calls append two history
records (not one) and the second call changes the store (it bumps the EMA
timestamp and `updated_at`), so the call is not a no-op when the stored
status already equals the new direction. -/
theorem claim_C1_counterexample :
    ((update_timeframe_state
        (update_timeframe_state emptyStore "SPY" "5MIN" "ema" "bullish"
          (some 450)).2
        "SPY" "5MIN" "ema" "bullish" (some 450)).2).history.length = 2 ∧
    (update_timeframe_state
        (update_timeframe_state emptyStore "SPY" "5MIN" "ema" "bullish"
          (some 450)).2
        "SPY" "5MIN" "ema" "bullish" (some 450)).2
      ≠ (update_timeframe_state emptyStore "SPY" "5MIN" "ema" "bullish"
          (some 450)).2 := by
  decide

/-- C1 (amended): `update_timeframe_state` performs no de-duplication of
its own: even when the stored status for (symbol, timeframe, indicator)
already equals the new normalized direction, a successful call still
appends exactly one StateChangeRecord and rewrites the row, bumping the
indicator timestamp and `updated_at`.  (The duplicate-suppression described
by the spec is done by the caller in `main.py`, which compares the stored
status before invoking this method.) -/
theorem claim_C1_no_dedup (st : Store) (symbol timeframe direction : String)
    (price : Option Int) (row : TimeframeRow)
    (hdir : pyUpper direction = "BULLISH" ∨ pyUpper direction = "BEARISH")
    (hfound : findRow st.states (pyUpper symbol) (pyUpper timeframe) = some row) :
    (row.ema_status = pyUpper direction →
      (update_timeframe_state st symbol timeframe "ema" direction price).1 = true ∧
      ((update_timeframe_state st symbol timeframe "ema" direction
          price).2).history.length = st.history.length + 1 ∧
      findRow ((update_timeframe_state st symbol timeframe "ema" direction
          price).2).states (pyUpper symbol) (pyUpper timeframe)
        = some { row with
            ema_status := pyUpper direction,
            last_ema_update := some st.clock,
            last_ema_price := price,
            updated_at := st.clock + 1 }) ∧
    (row.macd_status = pyUpper direction →
      (update_timeframe_state st symbol timeframe "macd" direction price).1 = true ∧
      ((update_timeframe_state st symbol timeframe "macd" direction
          price).2).history.length = st.history.length + 1 ∧
      findRow ((update_timeframe_state st symbol timeframe "macd" direction
          price).2).states (pyUpper symbol) (pyUpper timeframe)
        = some { row with
            macd_status := pyUpper direction,
            last_macd_update := some st.clock,
            last_macd_price := price,
            updated_at := st.clock + 1 }) := by
  have hkey := (findRow_some _ _ _ _ hfound).2
  constructor
  · intro _
    rw [update_ema_found st symbol timeframe direction price row hdir hfound]
    have hfr := findRow_replaceRow st.states (pyUpper symbol) (pyUpper timeframe)
      { row with ema_status := pyUpper direction, last_ema_update := some st.clock,
                 last_ema_price := price, updated_at := st.clock + 1 } hkey.1 hkey.2
    refine ⟨rfl, by simp, ?_⟩
    rw [hfr, hfound]
    rfl
  · intro _
    rw [update_macd_found st symbol timeframe direction price row hdir hfound]
    have hfr := findRow_replaceRow st.states (pyUpper symbol) (pyUpper timeframe)
      { row with macd_status := pyUpper direction, last_macd_update := some st.clock,
                 last_macd_price := price, updated_at := st.clock + 1 } hkey.1 hkey.2
    refine ⟨rfl, by simp, ?_⟩
    rw [hfr, hfound]
    rfl

/-- Witness for C1: on the store where (SPY, 5MIN) EMA is already BULLISH,
a second identical call still appends one more history record. -/
theorem claim_C1_witness :
    ((update_timeframe_state
        { states := [⟨"SPY", "5MIN", "BULLISH", "UNKNOWN", some 0, none,
                      some 450, none, 1, 1⟩],
          history := [⟨"SPY", "5MIN", "ema", "UNKNOWN", "BULLISH", some 450, 2⟩],
          clock := 3 }
        "SPY" "5MIN" "ema" "bullish" (some 450)).2).history.length = 2 := by
  have h := (claim_C1_no_dedup
    { states := [⟨"SPY", "5MIN", "BULLISH", "UNKNOWN", some 0, none,
                  some 450, none, 1, 1⟩],
      history := [⟨"SPY", "5MIN", "ema", "UNKNOWN", "BULLISH", some 450, 2⟩],
      clock := 3 }
    "SPY" "5MIN" "bullish" (some 450)
    ⟨"SPY", "5MIN", "BULLISH", "UNKNOWN", some 0, none, some 450, none, 1, 1⟩
    (Or.inl (by decide)) (by decide)).1 (by decide)
  exact h.2.1

/-! ### Helper lemmas for bootstrap recovery (claim C4) -/

theorem addPair_mem (acc : List (String × String)) (p q : String × String) :
    q ∈ addPair acc p ↔ q ∈ acc ∨ q = p := by
  simp only [addPair]
  by_cases h : p ∈ acc
  · rw [if_pos h]
    constructor
    · exact fun hq => Or.inl hq
    · rintro (hq | rfl)
      · exact hq
      · exact h
  · rw [if_neg h]
    simp [List.mem_append]

theorem mem_foldl_addPair (h : List StateChangeRecord) :
    ∀ (acc : List (String × String)) (p : String × String),
    (p ∈ h.foldl (fun a r => addPair a (r.symbol, r.timeframe)) acc ↔
      p ∈ acc ∨ ∃ r ∈ h, (r.symbol, r.timeframe) = p) := by
  induction h with
  | nil =>
    intro acc p
    simp
  | cons x xs ih =>
    intro acc p
    simp only [List.foldl_cons]
    rw [ih, addPair_mem]
    constructor
    · rintro ((hp | rfl) | hr)
      · exact Or.inl hp
      · exact Or.inr ⟨x, List.mem_cons_self x xs, rfl⟩
      · obtain ⟨r, hr1, hr2⟩ := hr
        exact Or.inr ⟨r, List.mem_cons_of_mem x hr1, hr2⟩
    · rintro (hp | ⟨r, hr1, hr2⟩)
      · exact Or.inl (Or.inl hp)
      · rcases List.mem_cons.mp hr1 with rfl | hr3
        · exact Or.inl (Or.inr hr2.symm)
        · exact Or.inr ⟨r, hr3, hr2⟩

theorem mem_distinctPairs (h : List StateChangeRecord) (p : String × String) :
    p ∈ distinctPairs h ↔ ∃ r ∈ h, (r.symbol, r.timeframe) = p := by
  have := mem_foldl_addPair h [] p
  simpa [distinctPairs] using this

theorem addPair_nodup (acc : List (String × String)) (p : String × String)
    (h : acc.Nodup) : (addPair acc p).Nodup := by
  simp only [addPair]
  by_cases hp : p ∈ acc
  · rw [if_pos hp]
    exact h
  · rw [if_neg hp]
    simp [List.nodup_append, h, hp]

theorem foldl_addPair_nodup (h : List StateChangeRecord) :
    ∀ (acc : List (String × String)), acc.Nodup →
    (h.foldl (fun a r => addPair a (r.symbol, r.timeframe)) acc).Nodup := by
  induction h with
  | nil => intro acc ha; exact ha
  | cons x xs ih =>
    intro acc ha
    simp only [List.foldl_cons]
    exact ih _ (addPair_nodup acc _ ha)

theorem distinctPairs_nodup (h : List StateChangeRecord) :
    (distinctPairs h).Nodup :=
  foldl_addPair_nodup h [] List.nodup_nil

theorem distinctPairs_append (h : List StateChangeRecord) (x : StateChangeRecord) :
    distinctPairs (h ++ [x]) = addPair (distinctPairs h) (x.symbol, x.timeframe) := by
  simp [distinctPairs, List.foldl_append]

theorem pickLater_foldl_mem (l : List StateChangeRecord) :
    ∀ (acc : Option StateChangeRecord) (a : StateChangeRecord),
    l.foldl pickLater acc = some a → acc = some a ∨ a ∈ l := by
  induction l with
  | nil =>
    intro acc a h
    exact Or.inl h
  | cons x xs ih =>
    intro acc a h
    simp only [List.foldl_cons] at h
    rcases ih _ _ h with h2 | h2
    · cases acc with
      | none =>
        simp only [pickLater] at h2
        rcases Option.some.inj h2 with rfl
        exact Or.inr (List.mem_cons_self x xs)
      | some b =>
        simp only [pickLater] at h2
        by_cases hle : b.timestamp ≤ x.timestamp
        · rw [if_pos hle] at h2
          rcases Option.some.inj h2 with rfl
          exact Or.inr (List.mem_cons_self x xs)
        · rw [if_neg hle] at h2
          exact Or.inl h2
    · exact Or.inr (List.mem_cons_of_mem x h2)

theorem latestFor_mem (h : List StateChangeRecord) (s t c : String)
    (a : StateChangeRecord) (ha : latestFor h s t c = some a) :
    a ∈ h ∧ a.symbol = s ∧ a.timeframe = t ∧ a.crossover_type = c := by
  simp only [latestFor] at ha
  rcases pickLater_foldl_mem _ none a ha with h2 | h2
  · cases h2
  · have h3 := List.mem_filter.mp h2
    have h4 := h3.2
    simp only [Bool.and_eq_true, beq_iff_eq] at h4
    exact ⟨h3.1, h4.1.1, h4.1.2, h4.2⟩

theorem latestFor_append_not (h : List StateChangeRecord) (x : StateChangeRecord)
    (s t c : String)
    (hx : ¬(x.symbol = s ∧ x.timeframe = t ∧ x.crossover_type = c)) :
    latestFor (h ++ [x]) s t c = latestFor h s t c := by
  have hfx : (x.symbol == s && x.timeframe == t && x.crossover_type == c) = false := by
    rw [Bool.eq_false_iff]
    intro hc
    apply hx
    simpa [Bool.and_eq_true, beq_iff_eq, and_assoc] using hc
  simp [latestFor, List.filter_append, hfx]

theorem latestFor_append_match (h : List StateChangeRecord) (x : StateChangeRecord)
    (s t c : String)
    (hts : ∀ r ∈ h, r.timestamp < x.timestamp)
    (hs : x.symbol = s) (ht : x.timeframe = t) (hc : x.crossover_type = c) :
    latestFor (h ++ [x]) s t c = some x := by
  have hfx : (x.symbol == s && x.timeframe == t && x.crossover_type == c) = true := by
    simp [hs, ht, hc]
  simp only [latestFor, List.filter_append, List.filter_cons, hfx, if_true,
    List.filter_nil, List.foldl_append]
  cases hacc : (h.filter (fun r => r.symbol == s && r.timeframe == t &&
      r.crossover_type == c)).foldl pickLater none with
  | none => rfl
  | some a =>
    have ha : a ∈ h := by
      rcases pickLater_foldl_mem _ none a hacc with h2 | h2
      · cases h2
      · exact (List.mem_filter.mp h2).1
    have hlt := hts a ha
    simp [pickLater, Nat.le_of_lt hlt]

theorem latestFor_none_of_not_mem_pairs (h : List StateChangeRecord)
    (s t c : String) (hnp : (s, t) ∉ distinctPairs h) :
    latestFor h s t c = none := by
  cases hl : latestFor h s t c with
  | none => rfl
  | some a =>
    obtain ⟨hmem, hs, ht, _⟩ := latestFor_mem h s t c a hl
    exact absurd ((mem_distinctPairs h (s, t)).mpr ⟨a, hmem, by rw [hs, ht]⟩) hnp

theorem findRow_none_iff (l : List TimeframeRow) (s t : String) :
    findRow l s t = none ↔ (s, t) ∉ l.map rowKey := by
  simp only [findRow, List.find?_eq_none]
  constructor
  · intro h hmem
    obtain ⟨r, hr, hk⟩ := List.mem_map.mp hmem
    have h2 := h r hr
    apply h2
    simp only [rowKey, Prod.mk.injEq] at hk
    simp [hk.1, hk.2]
  · intro h r hr hp
    apply h
    refine List.mem_map.mpr ⟨r, hr, ?_⟩
    simp only [Bool.and_eq_true, beq_iff_eq] at hp
    simp [rowKey, hp.1, hp.2]

theorem findRow_isSome_of_mem (l : List TimeframeRow) (s t : String)
    (hmem : (s, t) ∈ l.map rowKey) : ∃ r, findRow l s t = some r := by
  cases hf : findRow l s t with
  | some r => exact ⟨r, rfl⟩
  | none => exact absurd hmem ((findRow_none_iff l s t).mp hf)

theorem replaceRow_map_rowKey (l : List TimeframeRow) (s t : String)
    (n : TimeframeRow) (hs : n.symbol = s) (ht : n.timeframe = t) :
    (replaceRow l s t n).map rowKey = l.map rowKey := by
  simp only [replaceRow, List.map_map]
  apply List.map_congr_left
  intro r _
  simp only [Function.comp]
  by_cases hp : (r.symbol == s && r.timeframe == t) = true
  · rw [if_pos hp]
    simp only [Bool.and_eq_true, beq_iff_eq] at hp
    simp [rowKey, hs, ht, hp.1, hp.2]
  · rw [if_neg hp]

theorem mem_replaceRow (l : List TimeframeRow) (s t : String) (n : TimeframeRow)
    (r : TimeframeRow) (hr : r ∈ replaceRow l s t n) :
    r = n ∨ (r ∈ l ∧ ¬(r.symbol = s ∧ r.timeframe = t)) := by
  simp only [replaceRow, List.mem_map] at hr
  obtain ⟨a, ha, hfa⟩ := hr
  by_cases hp : (a.symbol == s && a.timeframe == t) = true
  · rw [if_pos hp] at hfa
    exact Or.inl hfa.symm
  · rw [if_neg hp] at hfa
    subst hfa
    refine Or.inr ⟨ha, fun hc => ?_⟩
    apply hp
    simp [hc.1, hc.2]

theorem applyValid_ema_found (st : Store) (sym tf dir : String) (price : Option Int)
    (row : TimeframeRow) (hfound : findRow st.states sym tf = some row) :
    applyValid st sym tf "ema" dir price =
      { states := replaceRow st.states sym tf
          { row with
              ema_status := dir,
              last_ema_update := some st.clock,
              last_ema_price := price,
              updated_at := st.clock + 1 }
        history := st.history ++ [{
          symbol := pyUpper sym, timeframe := pyUpper tf, crossover_type := "ema",
          old_status := row.ema_status, new_status := dir, price := price,
          timestamp := st.clock + 2 }]
        clock := st.clock + 3 } := by
  have hl : pyLower "ema" = "ema" := by decide
  simp only [applyValid, hfound]
  simp [log_state_change, hl, Nat.add_assoc]

theorem applyValid_macd_found (st : Store) (sym tf dir : String) (price : Option Int)
    (row : TimeframeRow) (hfound : findRow st.states sym tf = some row) :
    applyValid st sym tf "macd" dir price =
      { states := replaceRow st.states sym tf
          { row with
              macd_status := dir,
              last_macd_update := some st.clock,
              last_macd_price := price,
              updated_at := st.clock + 1 }
        history := st.history ++ [{
          symbol := pyUpper sym, timeframe := pyUpper tf, crossover_type := "macd",
          old_status := row.macd_status, new_status := dir, price := price,
          timestamp := st.clock + 2 }]
        clock := st.clock + 3 } := by
  have hl : pyLower "macd" = "macd" := by decide
  simp only [applyValid, hfound]
  simp [log_state_change, hl, Nat.add_assoc]

theorem applyValid_ema_new (st : Store) (sym tf dir : String) (price : Option Int)
    (hnone : findRow st.states sym tf = none) :
    applyValid st sym tf "ema" dir price =
      { states := st.states ++ [{
          symbol := sym, timeframe := tf, ema_status := dir,
          macd_status := "UNKNOWN", last_ema_update := some st.clock,
          last_macd_update := none, last_ema_price := price,
          last_macd_price := none, created_at := st.clock + 1,
          updated_at := st.clock + 1 }]
        history := st.history ++ [{
          symbol := pyUpper sym, timeframe := pyUpper tf, crossover_type := "ema",
          old_status := "UNKNOWN", new_status := dir, price := price,
          timestamp := st.clock + 2 }]
        clock := st.clock + 3 } := by
  have hl : pyLower "ema" = "ema" := by decide
  simp only [applyValid, hnone]
  simp [log_state_change, hl, Nat.add_assoc]

theorem applyValid_macd_new (st : Store) (sym tf dir : String) (price : Option Int)
    (hnone : findRow st.states sym tf = none) :
    applyValid st sym tf "macd" dir price =
      { states := st.states ++ [{
          symbol := sym, timeframe := tf, ema_status := "UNKNOWN",
          macd_status := dir, last_ema_update := none,
          last_macd_update := some st.clock, last_ema_price := none,
          last_macd_price := price, created_at := st.clock + 1,
          updated_at := st.clock + 1 }]
        history := st.history ++ [{
          symbol := pyUpper sym, timeframe := pyUpper tf, crossover_type := "macd",
          old_status := "UNKNOWN", new_status := dir, price := price,
          timestamp := st.clock + 2 }]
        clock := st.clock + 3 } := by
  have hl : pyLower "macd" = "macd" := by decide
  simp only [applyValid, hnone]
  simp [log_state_change, hl, Nat.add_assoc]

theorem RowMatch_congr (h : List StateChangeRecord) (a b : TimeframeRow)
    (hc : coreOf a = coreOf b) (hm : RowMatch h b) : RowMatch h a := by
  simp only [coreOf, CoreView.mk.injEq] at hc
  obtain ⟨h1, h2, h3, h4, h5, h6⟩ := hc
  simp only [RowMatch, h1, h2, h3, h4, h5, h6]
  exact hm

theorem RowMatch_append_of_ne (h : List StateChangeRecord)
    (rec : StateChangeRecord) (r : TimeframeRow)
    (hne : ¬(rec.symbol = r.symbol ∧ rec.timeframe = r.timeframe))
    (hm : RowMatch h r) : RowMatch (h ++ [rec]) r := by
  have he := latestFor_append_not h rec r.symbol r.timeframe "ema"
    (by rintro ⟨h1, h2, _⟩; exact hne ⟨h1, h2⟩)
  have hm2 := latestFor_append_not h rec r.symbol r.timeframe "macd"
    (by rintro ⟨h1, h2, _⟩; exact hne ⟨h1, h2⟩)
  simp only [RowMatch, he, hm2]
  exact hm

theorem Inv_update_branch (st : Store) (sym tf : String)
    (rec : StateChangeRecord) (row newRow : TimeframeRow) (c3 : Nat)
    (hinv : Inv st)
    (hfound : findRow st.states sym tf = some row)
    (hsym : sym = pyUpper sym) (htf : tf = pyUpper tf)
    (hrec_sym : rec.symbol = pyUpper sym) (hrec_tf : rec.timeframe = pyUpper tf)
    (hrec_ts : rec.timestamp = st.clock + 2)
    (hnew_sym : newRow.symbol = row.symbol) (hnew_tf : newRow.timeframe = row.timeframe)
    (hmatch_new : RowMatch (st.history ++ [rec]) newRow)
    (hclock : st.clock + 2 < c3) :
    Inv { states := replaceRow st.states sym tf newRow,
          history := st.history ++ [rec], clock := c3 } := by
  obtain ⟨hrowmem, hrowsym, hrowtf⟩ := findRow_some _ _ _ _ hfound
  have hns : newRow.symbol = sym := by rw [hnew_sym, hrowsym]
  have hnt : newRow.timeframe = tf := by rw [hnew_tf, hrowtf]
  refine ⟨?_, ?_, ?_, ?_, ?_⟩
  · intro r hr
    rcases List.mem_append.mp hr with hr | hr
    · exact hinv.hist_upper r hr
    · rcases List.mem_singleton.mp hr with rfl
      exact ⟨by rw [hrec_sym, pyUpper_idem], by rw [hrec_tf, pyUpper_idem]⟩
  · intro r hr
    rcases List.mem_append.mp hr with hr | hr
    · have := hinv.hist_clock r hr
      simp only []
      omega
    · rcases List.mem_singleton.mp hr with rfl
      simp only []
      omega
  · intro r hr
    rcases mem_replaceRow _ _ _ _ r hr with rfl | ⟨hr2, _⟩
    · have h2 := hinv.rows_upper row hrowmem
      exact ⟨by rw [hnew_sym]; exact h2.1, by rw [hnew_tf]; exact h2.2⟩
    · exact hinv.rows_upper r hr2
  · show distinctPairs (st.history ++ [rec]) = (replaceRow st.states sym tf newRow).map rowKey
    rw [distinctPairs_append]
    have hkk : (rec.symbol, rec.timeframe) = (sym, tf) := by
      rw [hrec_sym, hrec_tf, ← hsym, ← htf]
    rw [hkk]
    have hkmem : (sym, tf) ∈ distinctPairs st.history := by
      rw [hinv.pairs_eq]
      exact List.mem_map.mpr ⟨row, hrowmem, by simp [rowKey, hrowsym, hrowtf]⟩
    rw [addPair, if_pos hkmem, hinv.pairs_eq,
      replaceRow_map_rowKey st.states sym tf newRow hns hnt]
  · intro r hr
    rcases mem_replaceRow _ _ _ _ r hr with rfl | ⟨hr2, hnk⟩
    · exact hmatch_new
    · refine RowMatch_append_of_ne st.history rec r ?_ (hinv.rows_match r hr2)
      rintro ⟨h1, h2⟩
      apply hnk
      constructor
      · rw [← h1, hrec_sym, ← hsym]
      · rw [← h2, hrec_tf, ← htf]

theorem Inv_insert_branch (st : Store) (sym tf : String)
    (rec : StateChangeRecord) (newRow : TimeframeRow) (c3 : Nat)
    (hinv : Inv st)
    (hnone : findRow st.states sym tf = none)
    (hsym : sym = pyUpper sym) (htf : tf = pyUpper tf)
    (hrec_sym : rec.symbol = pyUpper sym) (hrec_tf : rec.timeframe = pyUpper tf)
    (hrec_ts : rec.timestamp = st.clock + 2)
    (hnew_sym : newRow.symbol = sym) (hnew_tf : newRow.timeframe = tf)
    (hmatch_new : RowMatch (st.history ++ [rec]) newRow)
    (hclock : st.clock + 2 < c3) :
    Inv { states := st.states ++ [newRow],
          history := st.history ++ [rec], clock := c3 } := by
  have hknotmem : (sym, tf) ∉ st.states.map rowKey := (findRow_none_iff _ _ _).mp hnone
  refine ⟨?_, ?_, ?_, ?_, ?_⟩
  · intro r hr
    rcases List.mem_append.mp hr with hr | hr
    · exact hinv.hist_upper r hr
    · rcases List.mem_singleton.mp hr with rfl
      exact ⟨by rw [hrec_sym, pyUpper_idem], by rw [hrec_tf, pyUpper_idem]⟩
  · intro r hr
    rcases List.mem_append.mp hr with hr | hr
    · have := hinv.hist_clock r hr
      simp only []
      omega
    · rcases List.mem_singleton.mp hr with rfl
      simp only []
      omega
  · intro r hr
    rcases List.mem_append.mp hr with hr | hr
    · exact hinv.rows_upper r hr
    · rcases List.mem_singleton.mp hr with rfl
      exact ⟨by rw [hnew_sym]; exact hsym, by rw [hnew_tf]; exact htf⟩
  · show distinctPairs (st.history ++ [rec]) = (st.states ++ [newRow]).map rowKey
    rw [distinctPairs_append]
    have hkk : (rec.symbol, rec.timeframe) = (sym, tf) := by
      rw [hrec_sym, hrec_tf, ← hsym, ← htf]
    rw [hkk]
    have hkmem : (sym, tf) ∉ distinctPairs st.history := by
      rw [hinv.pairs_eq]
      exact hknotmem
    rw [addPair, if_neg hkmem, hinv.pairs_eq, List.map_append]
    congr 1
    simp [rowKey, hnew_sym, hnew_tf]
  · intro r hr
    rcases List.mem_append.mp hr with hr | hr
    · refine RowMatch_append_of_ne st.history rec r ?_ (hinv.rows_match r hr)
      rintro ⟨h1, h2⟩
      apply hknotmem
      refine List.mem_map.mpr ⟨r, hr, ?_⟩
      simp only [rowKey, Prod.mk.injEq]
      constructor
      · rw [← h1, hrec_sym, ← hsym]
      · rw [← h2, hrec_tf, ← htf]
    · rcases List.mem_singleton.mp hr with rfl
      exact hmatch_new

theorem RowMatch_found_ema (st : Store) (sym tf dir : String) (price : Option Int)
    (row : TimeframeRow) (hinv : Inv st)
    (hsym : sym = pyUpper sym) (htf : tf = pyUpper tf)
    (hrowmem : row ∈ st.states) (hrowsym : row.symbol = sym)
    (hrowtf : row.timeframe = tf) :
    RowMatch (st.history ++ [{
        symbol := pyUpper sym, timeframe := pyUpper tf,
        crossover_type := "ema", old_status := row.ema_status, new_status := dir,
        price := price, timestamp := st.clock + 2 }])
      { row with
          ema_status := dir,
          last_ema_update := some st.clock,
          last_ema_price := price,
          updated_at := st.clock + 1 } := by
  have hts : ∀ r ∈ st.history, r.timestamp < st.clock + 2 := by
    intro r hr
    have := hinv.hist_clock r hr
    omega
  simp only [RowMatch]
  refine ⟨?_, ?_⟩
  · rw [latestFor_append_match st.history _ row.symbol row.timeframe "ema" hts
      (by rw [hrowsym, ← hsym]) (by rw [hrowtf, ← htf]) rfl]
    exact ⟨rfl, rfl⟩
  · rw [latestFor_append_not st.history _ row.symbol row.timeframe "macd"
      (by rintro ⟨_, _, hc⟩; exact absurd (show ("ema" : String) = "macd" from hc) (by decide))]
    exact (hinv.rows_match row hrowmem).2

theorem RowMatch_found_macd (st : Store) (sym tf dir : String) (price : Option Int)
    (row : TimeframeRow) (hinv : Inv st)
    (hsym : sym = pyUpper sym) (htf : tf = pyUpper tf)
    (hrowmem : row ∈ st.states) (hrowsym : row.symbol = sym)
    (hrowtf : row.timeframe = tf) :
    RowMatch (st.history ++ [{
        symbol := pyUpper sym, timeframe := pyUpper tf,
        crossover_type := "macd", old_status := row.macd_status, new_status := dir,
        price := price, timestamp := st.clock + 2 }])
      { row with
          macd_status := dir,
          last_macd_update := some st.clock,
          last_macd_price := price,
          updated_at := st.clock + 1 } := by
  have hts : ∀ r ∈ st.history, r.timestamp < st.clock + 2 := by
    intro r hr
    have := hinv.hist_clock r hr
    omega
  simp only [RowMatch]
  refine ⟨?_, ?_⟩
  · rw [latestFor_append_not st.history _ row.symbol row.timeframe "ema"
      (by rintro ⟨_, _, hc⟩; exact absurd (show ("macd" : String) = "ema" from hc) (by decide))]
    exact (hinv.rows_match row hrowmem).1
  · rw [latestFor_append_match st.history _ row.symbol row.timeframe "macd" hts
      (by rw [hrowsym, ← hsym]) (by rw [hrowtf, ← htf]) rfl]
    exact ⟨rfl, rfl⟩

theorem RowMatch_new_ema (st : Store) (sym tf dir : String) (price : Option Int)
    (hinv : Inv st)
    (hsym : sym = pyUpper sym) (htf : tf = pyUpper tf)
    (hnone : findRow st.states sym tf = none) :
    RowMatch (st.history ++ [{
        symbol := pyUpper sym, timeframe := pyUpper tf,
        crossover_type := "ema", old_status := "UNKNOWN", new_status := dir,
        price := price, timestamp := st.clock + 2 }])
      { symbol := sym, timeframe := tf, ema_status := dir,
        macd_status := "UNKNOWN", last_ema_update := some st.clock,
        last_macd_update := none, last_ema_price := price,
        last_macd_price := none, created_at := st.clock + 1,
        updated_at := st.clock + 1 } := by
  have hts : ∀ r ∈ st.history, r.timestamp < st.clock + 2 := by
    intro r hr
    have := hinv.hist_clock r hr
    omega
  have hnp : (sym, tf) ∉ distinctPairs st.history := by
    rw [hinv.pairs_eq]
    exact (findRow_none_iff _ _ _).mp hnone
  simp only [RowMatch]
  refine ⟨?_, ?_⟩
  · rw [latestFor_append_match st.history _ sym tf "ema" hts hsym.symm htf.symm rfl]
    exact ⟨rfl, rfl⟩
  · rw [latestFor_append_not st.history _ sym tf "macd"
      (by rintro ⟨_, _, hc⟩; exact absurd (show ("ema" : String) = "macd" from hc) (by decide))]
    rw [latestFor_none_of_not_mem_pairs st.history sym tf "macd" hnp]
    simp

theorem RowMatch_new_macd (st : Store) (sym tf dir : String) (price : Option Int)
    (hinv : Inv st)
    (hsym : sym = pyUpper sym) (htf : tf = pyUpper tf)
    (hnone : findRow st.states sym tf = none) :
    RowMatch (st.history ++ [{
        symbol := pyUpper sym, timeframe := pyUpper tf,
        crossover_type := "macd", old_status := "UNKNOWN", new_status := dir,
        price := price, timestamp := st.clock + 2 }])
      { symbol := sym, timeframe := tf, ema_status := "UNKNOWN",
        macd_status := dir, last_ema_update := none,
        last_macd_update := some st.clock, last_ema_price := none,
        last_macd_price := price, created_at := st.clock + 1,
        updated_at := st.clock + 1 } := by
  have hts : ∀ r ∈ st.history, r.timestamp < st.clock + 2 := by
    intro r hr
    have := hinv.hist_clock r hr
    omega
  have hnp : (sym, tf) ∉ distinctPairs st.history := by
    rw [hinv.pairs_eq]
    exact (findRow_none_iff _ _ _).mp hnone
  simp only [RowMatch]
  refine ⟨?_, ?_⟩
  · rw [latestFor_append_not st.history _ sym tf "ema"
      (by rintro ⟨_, _, hc⟩; exact absurd (show ("macd" : String) = "ema" from hc) (by decide))]
    rw [latestFor_none_of_not_mem_pairs st.history sym tf "ema" hnp]
    simp
  · rw [latestFor_append_match st.history _ sym tf "macd" hts hsym.symm htf.symm rfl]
    exact ⟨rfl, rfl⟩

theorem applyValid_inv (st : Store) (sym tf ct dir : String) (price : Option Int)
    (hct : ct = "ema" ∨ ct = "macd")
    (hsym : sym = pyUpper sym) (htf : tf = pyUpper tf)
    (hinv : Inv st) : Inv (applyValid st sym tf ct dir price) := by
  rcases hct with rfl | rfl
  · cases hfind : findRow st.states sym tf with
    | some row =>
      rw [applyValid_ema_found st sym tf dir price row hfind]
      obtain ⟨hrowmem, hrowsym, hrowtf⟩ := findRow_some _ _ _ _ hfind
      exact Inv_update_branch st sym tf _ row _ _ hinv hfind hsym htf rfl rfl rfl
        rfl rfl
        (RowMatch_found_ema st sym tf dir price row hinv hsym htf hrowmem hrowsym hrowtf)
        (by omega)
    | none =>
      rw [applyValid_ema_new st sym tf dir price hfind]
      exact Inv_insert_branch st sym tf _ _ _ hinv hfind hsym htf rfl rfl rfl
        rfl rfl
        (RowMatch_new_ema st sym tf dir price hinv hsym htf hfind)
        (by omega)
  · cases hfind : findRow st.states sym tf with
    | some row =>
      rw [applyValid_macd_found st sym tf dir price row hfind]
      obtain ⟨hrowmem, hrowsym, hrowtf⟩ := findRow_some _ _ _ _ hfind
      exact Inv_update_branch st sym tf _ row _ _ hinv hfind hsym htf rfl rfl rfl
        rfl rfl
        (RowMatch_found_macd st sym tf dir price row hinv hsym htf hrowmem hrowsym hrowtf)
        (by omega)
    | none =>
      rw [applyValid_macd_new st sym tf dir price hfind]
      exact Inv_insert_branch st sym tf _ _ _ hinv hfind hsym htf rfl rfl rfl
        rfl rfl
        (RowMatch_new_macd st sym tf dir price hinv hsym htf hfind)
        (by omega)

theorem Inv_empty : Inv emptyStore := by
  refine ⟨?_, ?_, ?_, rfl, ?_⟩ <;> simp [emptyStore]

theorem update_inv (st : Store) (a b c d : String) (p : Option Int)
    (hinv : Inv st) : Inv ((update_timeframe_state st a b c d p).2) := by
  simp only [update_timeframe_state]
  by_cases h1 : pyLower c = "ema" ∨ pyLower c = "macd"
  · rw [if_pos h1]
    by_cases h2 : pyUpper d = "BULLISH" ∨ pyUpper d = "BEARISH"
    · rw [if_pos h2]
      exact applyValid_inv st (pyUpper a) (pyUpper b) (pyLower c) (pyUpper d) p h1
        (pyUpper_idem a).symm (pyUpper_idem b).symm hinv
    · rw [if_neg h2]
      exact hinv
  · rw [if_neg h1]
    exact hinv

theorem replay_inv (events : List EventIn) : Inv (replay events) := by
  suffices h : ∀ st, Inv st → Inv (events.foldl applyEvent st) by
    exact h emptyStore Inv_empty
  induction events with
  | nil =>
    intro st h
    exact h
  | cons e es ih =>
    intro st h
    exact ih _ (update_inv st e.symbol e.timeframe e.crossover_type e.direction
      e.price h)

/-! ### The history query under arbitrary tie resolution -/

theorem foldl_pickLater_isSome (l : List StateChangeRecord) :
    ∀ b : StateChangeRecord, (l.foldl pickLater (some b)).isSome = true := by
  induction l with
  | nil =>
    intro b
    rfl
  | cons x xs ih =>
    intro b
    simp only [List.foldl_cons, pickLater]
    by_cases hle : b.timestamp ≤ x.timestamp
    · rw [if_pos hle]
      exact ih x
    · rw [if_neg hle]
      exact ih b

theorem foldl_pickLater_ub (l : List StateChangeRecord) :
    ∀ (acc : Option StateChangeRecord) (a : StateChangeRecord),
    l.foldl pickLater acc = some a →
    (∀ b ∈ l, b.timestamp ≤ a.timestamp) ∧
    (∀ b, acc = some b → b.timestamp ≤ a.timestamp) := by
  induction l with
  | nil =>
    intro acc a h
    simp only [List.foldl_nil] at h
    refine ⟨?_, ?_⟩
    · intro b hb
      exact absurd hb (List.not_mem_nil b)
    · intro b hb
      rw [hb] at h
      rcases Option.some.inj h with rfl
      exact Nat.le_refl _
  | cons x xs ih =>
    intro acc a h
    simp only [List.foldl_cons] at h
    obtain ⟨ih1, ih2⟩ := ih _ a h
    have hx : x.timestamp ≤ a.timestamp := by
      cases acc with
      | none =>
        exact ih2 x rfl
      | some d =>
        by_cases hle : d.timestamp ≤ x.timestamp
        · apply ih2
          simp only [pickLater]
          rw [if_pos hle]
        · have hdx := ih2 d (by
            simp only [pickLater]
            rw [if_neg hle])
          exact Nat.le_trans (Nat.le_of_not_le hle) hdx
    refine ⟨?_, ?_⟩
    · intro b hb
      rcases List.mem_cons.mp hb with rfl | hb2
      · exact hx
      · exact ih1 b hb2
    · intro b hb
      cases acc with
      | none => exact Option.noConfusion hb
      | some d =>
        rcases Option.some.inj hb with rfl
        by_cases hle : d.timestamp ≤ x.timestamp
        · exact Nat.le_trans hle hx
        · apply ih2
          simp only [pickLater]
          rw [if_neg hle]

theorem sqlPickLatest_valid : ValidResolver sqlPickLatest := by
  refine ⟨rfl, ?_, ?_⟩
  · intro l hl
    cases l with
    | nil => exact absurd rfl hl
    | cons x xs =>
      show (xs.foldl pickLater (pickLater none x)).isSome = true
      exact foldl_pickLater_isSome xs x
  · intro l a h
    refine ⟨?_, ?_⟩
    · rcases pickLater_foldl_mem l none a h with h2 | h2
      · exact Option.noConfusion h2
      · exact h2
    · exact (foldl_pickLater_ub l none a h).1

theorem pickEarlier_foldl_mem (l : List StateChangeRecord) :
    ∀ (acc : Option StateChangeRecord) (a : StateChangeRecord),
    l.foldl pickEarlier acc = some a → acc = some a ∨ a ∈ l := by
  induction l with
  | nil =>
    intro acc a h
    exact Or.inl h
  | cons x xs ih =>
    intro acc a h
    simp only [List.foldl_cons] at h
    rcases ih _ _ h with h2 | h2
    · cases acc with
      | none =>
        simp only [pickEarlier] at h2
        rcases Option.some.inj h2 with rfl
        exact Or.inr (List.mem_cons_self x xs)
      | some b =>
        simp only [pickEarlier] at h2
        by_cases hlt : b.timestamp < x.timestamp
        · rw [if_pos hlt] at h2
          rcases Option.some.inj h2 with rfl
          exact Or.inr (List.mem_cons_self x xs)
        · rw [if_neg hlt] at h2
          exact Or.inl h2
    · exact Or.inr (List.mem_cons_of_mem x h2)

theorem foldl_pickEarlier_isSome (l : List StateChangeRecord) :
    ∀ b : StateChangeRecord, (l.foldl pickEarlier (some b)).isSome = true := by
  induction l with
  | nil =>
    intro b
    rfl
  | cons x xs ih =>
    intro b
    simp only [List.foldl_cons, pickEarlier]
    by_cases hlt : b.timestamp < x.timestamp
    · rw [if_pos hlt]
      exact ih x
    · rw [if_neg hlt]
      exact ih b

theorem foldl_pickEarlier_ub (l : List StateChangeRecord) :
    ∀ (acc : Option StateChangeRecord) (a : StateChangeRecord),
    l.foldl pickEarlier acc = some a →
    (∀ b ∈ l, b.timestamp ≤ a.timestamp) ∧
    (∀ b, acc = some b → b.timestamp ≤ a.timestamp) := by
  induction l with
  | nil =>
    intro acc a h
    simp only [List.foldl_nil] at h
    refine ⟨?_, ?_⟩
    · intro b hb
      exact absurd hb (List.not_mem_nil b)
    · intro b hb
      rw [hb] at h
      rcases Option.some.inj h with rfl
      exact Nat.le_refl _
  | cons x xs ih =>
    intro acc a h
    simp only [List.foldl_cons] at h
    obtain ⟨ih1, ih2⟩ := ih _ a h
    have hx : x.timestamp ≤ a.timestamp := by
      cases acc with
      | none =>
        exact ih2 x rfl
      | some d =>
        by_cases hlt : d.timestamp < x.timestamp
        · apply ih2
          simp only [pickEarlier]
          rw [if_pos hlt]
        · have hdx := ih2 d (by
            simp only [pickEarlier]
            rw [if_neg hlt])
          exact Nat.le_trans (Nat.le_of_not_lt hlt) hdx
    refine ⟨?_, ?_⟩
    · intro b hb
      rcases List.mem_cons.mp hb with rfl | hb2
      · exact hx
      · exact ih1 b hb2
    · intro b hb
      cases acc with
      | none => exact Option.noConfusion hb
      | some d =>
        rcases Option.some.inj hb with rfl
        by_cases hlt : d.timestamp < x.timestamp
        · exact Nat.le_trans (Nat.le_of_lt hlt) hx
        · apply ih2
          simp only [pickEarlier]
          rw [if_neg hlt]

theorem sqlPickEarliest_valid : ValidResolver sqlPickEarliest := by
  refine ⟨rfl, ?_, ?_⟩
  · intro l hl
    cases l with
    | nil => exact absurd rfl hl
    | cons x xs =>
      show (xs.foldl pickEarlier (pickEarlier none x)).isSome = true
      exact foldl_pickEarlier_isSome xs x
  · intro l a h
    refine ⟨?_, ?_⟩
    · rcases pickEarlier_foldl_mem l none a h with h2 | h2
      · exact Option.noConfusion h2
      · exact h2
    · exact (foldl_pickEarlier_ub l none a h).1

theorem mem_queryMatches (h : List StateChangeRecord) (s t c : String)
    (b : StateChangeRecord) (hb : b ∈ queryMatches h s t c) :
    b ∈ h ∧ b.symbol = s ∧ b.timeframe = t ∧ b.crossover_type = c := by
  have h2 := List.mem_filter.mp hb
  have h3 := h2.2
  simp only [Bool.and_eq_true, beq_iff_eq] at h3
  exact ⟨h2.1, h3.1.1, h3.1.2, h3.2⟩

theorem latestFor_mem_matches (h : List StateChangeRecord) (s t c : String)
    (a : StateChangeRecord) (ha : latestFor h s t c = some a) :
    a ∈ queryMatches h s t c := by
  rcases pickLater_foldl_mem (queryMatches h s t c) none a ha with h2 | h2
  · exact Option.noConfusion h2
  · exact h2

theorem latestFor_ub (h : List StateChangeRecord) (s t c : String)
    (a : StateChangeRecord) (ha : latestFor h s t c = some a) :
    ∀ b ∈ queryMatches h s t c, b.timestamp ≤ a.timestamp :=
  (foldl_pickLater_ub (queryMatches h s t c) none a ha).1

theorem latestFor_none_iff_matches (h : List StateChangeRecord)
    (s t c : String) :
    latestFor h s t c = none ↔ queryMatches h s t c = [] := by
  constructor
  · intro hn
    cases hq : queryMatches h s t c with
    | nil => rfl
    | cons x xs =>
      have hs2 : (latestFor h s t c).isSome = true := by
        show ((queryMatches h s t c).foldl pickLater none).isSome = true
        rw [hq]
        exact foldl_pickLater_isSome xs x
      rw [hn] at hs2
      exact Bool.noConfusion hs2
  · intro he
    show (queryMatches h s t c).foldl pickLater none = none
    rw [he]
    rfl

theorem queryMatches_coarse (sec : Nat → Nat) (h : List StateChangeRecord)
    (s t c : String) :
    queryMatches (coarseHistory sec h) s t c
      = (queryMatches h s t c).map (coarseRecord sec) := by
  simp only [queryMatches, coarseHistory]
  rw [List.filter_map]
  congr 1

theorem distinctPairs_coarse (sec : Nat → Nat) (h : List StateChangeRecord) :
    distinctPairs (coarseHistory sec h) = distinctPairs h := by
  simp only [distinctPairs, coarseHistory, List.foldl_map]
  rfl

theorem coarseStore_states_core (sec : Nat → Nat) (st : Store) :
    (coarseStore sec st).states.map coreOf = st.states.map coreOf := by
  show (st.states.map (coarseRow sec)).map coreOf = st.states.map coreOf
  rw [List.map_map]
  apply List.map_congr_left
  intro r _
  rfl

/-- Over a tie-free coarsened history, every valid resolver returns the
record the deterministic newest-preferring query returns, up to the
coarsening of its timestamp.  This is where the tie-freedom hypothesis is
spent: without it two matching records can share the maximal coarse
timestamp and the resolvers diverge. -/
theorem latestWith_coarse
    (pick : List StateChangeRecord → Option StateChangeRecord)
    (sec : Nat → Nat) (h : List StateChangeRecord)
    (hpick : ValidResolver pick) (hmono : Monotone sec)
    (htie : TieFree sec h) (s t c : String) :
    latestWith pick (coarseHistory sec h) s t c
      = (latestFor h s t c).map (coarseRecord sec) := by
  obtain ⟨hnil, hsome, hmax⟩ := hpick
  have hqc : queryMatches (coarseHistory sec h) s t c
      = (queryMatches h s t c).map (coarseRecord sec) :=
    queryMatches_coarse sec h s t c
  cases hl : latestFor h s t c with
  | none =>
    have hq : queryMatches h s t c = [] :=
      (latestFor_none_iff_matches h s t c).mp hl
    show pick (queryMatches (coarseHistory sec h) s t c) = none
    rw [hqc, hq]
    exact hnil
  | some a =>
    have hamem : a ∈ queryMatches h s t c := latestFor_mem_matches h s t c a hl
    have hub := latestFor_ub h s t c a hl
    have hca : coarseRecord sec a ∈ queryMatches (coarseHistory sec h) s t c := by
      rw [hqc]
      exact List.mem_map.mpr ⟨a, hamem, rfl⟩
    have hne : queryMatches (coarseHistory sec h) s t c ≠ [] := by
      intro hcon
      rw [hcon] at hca
      exact absurd hca (List.not_mem_nil _)
    have hps : (pick (queryMatches (coarseHistory sec h) s t c)).isSome = true :=
      hsome _ hne
    cases hm : pick (queryMatches (coarseHistory sec h) s t c) with
    | none =>
      rw [hm] at hps
      exact Bool.noConfusion hps
    | some m =>
      obtain ⟨hmmem, hmub⟩ := hmax _ m hm
      rw [hqc] at hmmem
      obtain ⟨b, hbmem, hbeq⟩ := List.mem_map.mp hmmem
      have h1 : sec a.timestamp ≤ m.timestamp := hmub _ hca
      have h2 : m.timestamp = sec b.timestamp := by
        rw [← hbeq]
        rfl
      have h3 : sec b.timestamp ≤ sec a.timestamp := hmono (hub b hbmem)
      have hba : b = a := by
        by_contra hne2
        obtain ⟨hbh, hbs, hbt, hbc⟩ := mem_queryMatches h s t c b hbmem
        obtain ⟨hah, has, hat, hac⟩ := mem_queryMatches h s t c a hamem
        have hdiff := htie b hbh a hah (by rw [hbs, has]) (by rw [hbt, hat])
          (by rw [hbc, hac]) hne2
        apply hdiff
        omega
      have hmval : m = coarseRecord sec a := by
        rw [← hbeq, hba]
      show pick (queryMatches (coarseHistory sec h) s t c)
        = (some a).map (coarseRecord sec)
      rw [hm, hmval]
      rfl

theorem bootPairStepWith_insert
    (pick : List StateChangeRecord → Option StateChangeRecord)
    (ch : List StateChangeRecord) (st : Store) (p : String × String)
    (hnone : findRow st.states (pyUpper p.1) (pyUpper p.2) = none) :
    bootPairStepWith pick ch st p =
      { st with states := st.states ++ [bootInsRowWith pick ch p st.clock],
                clock := st.clock + 1 } := by
  simp only [bootPairStepWith, hnone]

theorem bootPairStepWith_update
    (pick : List StateChangeRecord → Option StateChangeRecord)
    (ch : List StateChangeRecord) (st : Store) (p : String × String)
    (row : TimeframeRow)
    (hfound : findRow st.states (pyUpper p.1) (pyUpper p.2) = some row)
    (hsome : ((latestWith pick ch p.1 p.2 "ema").isSome ||
      (latestWith pick ch p.1 p.2 "macd").isSome) = true) :
    bootPairStepWith pick ch st p =
      { st with
          states := replaceRow st.states (pyUpper p.1) (pyUpper p.2)
            (bootUpdRowWith pick ch p row st.clock),
          clock := st.clock + 1 } := by
  simp only [bootPairStepWith, hfound, hsome, if_true]

theorem bootPairStepWith_skip
    (pick : List StateChangeRecord → Option StateChangeRecord)
    (ch : List StateChangeRecord) (st : Store) (p : String × String)
    (row : TimeframeRow)
    (hfound : findRow st.states (pyUpper p.1) (pyUpper p.2) = some row)
    (hnosome : ((latestWith pick ch p.1 p.2 "ema").isSome ||
      (latestWith pick ch p.1 p.2 "macd").isSome) = false) :
    bootPairStepWith pick ch st p = st := by
  simp only [bootPairStepWith, hfound, hnosome]
  rfl

theorem RowMatch_bootInsRowWith
    (pick : List StateChangeRecord → Option StateChangeRecord)
    (sec : Nat → Nat) (h ch : List StateChangeRecord)
    (hbridge : ∀ s t c, latestWith pick ch s t c
      = (latestFor h s t c).map (coarseRecord sec))
    (q : String × String) (c : Nat)
    (h1 : q.1 = pyUpper q.1) (h2 : q.2 = pyUpper q.2) :
    RowMatch h (bootInsRowWith pick ch q c) := by
  simp only [RowMatch, bootInsRowWith, hbridge]
  rw [← h1, ← h2]
  constructor
  · cases he : latestFor h q.1 q.2 "ema" <;> simp [he, coarseRecord]
  · cases hm : latestFor h q.1 q.2 "macd" <;> simp [hm, coarseRecord]

theorem coreOf_bootInsRowWith
    (pick : List StateChangeRecord → Option StateChangeRecord)
    (sec : Nat → Nat) (h ch : List StateChangeRecord)
    (hbridge : ∀ s t c, latestWith pick ch s t c
      = (latestFor h s t c).map (coarseRecord sec))
    (q : String × String) (c : Nat) :
    coreOf (bootInsRowWith pick ch q c) = insCore h q := by
  simp only [coreOf, bootInsRowWith, insCore, CoreView.mk.injEq, hbridge,
    true_and]
  refine ⟨?_, ?_, ?_, ?_⟩
  · cases he : latestFor h q.1 q.2 "ema" <;> simp [he, coarseRecord]
  · cases hm : latestFor h q.1 q.2 "macd" <;> simp [hm, coarseRecord]
  · cases he : latestFor h q.1 q.2 "ema" <;> simp [he, coarseRecord]
  · cases hm : latestFor h q.1 q.2 "macd" <;> simp [hm, coarseRecord]

theorem core_bootUpdRowWith
    (pick : List StateChangeRecord → Option StateChangeRecord)
    (sec : Nat → Nat) (h ch : List StateChangeRecord)
    (hbridge : ∀ s t c, latestWith pick ch s t c
      = (latestFor h s t c).map (coarseRecord sec))
    (q : String × String) (row : TimeframeRow) (c : Nat)
    (hrsym : row.symbol = q.1) (hrtf : row.timeframe = q.2)
    (hm : RowMatch h row) :
    coreOf (bootUpdRowWith pick ch q row c) = coreOf row := by
  have hm1 := hm.1
  have hm2 := hm.2
  rw [hrsym, hrtf] at hm1 hm2
  simp only [coreOf, bootUpdRowWith, CoreView.mk.injEq, hbridge, true_and]
  refine ⟨?_, ?_, ?_, ?_⟩
  · rcases he : latestFor h q.1 q.2 "ema" with _ | e
    · simp [he]
    · rw [he] at hm1
      simp [he, coarseRecord]
      exact hm1.1
  · rcases hc : latestFor h q.1 q.2 "macd" with _ | m
    · simp [hc]
    · rw [hc] at hm2
      simp [hc, coarseRecord]
      exact hm2.1
  · rcases he : latestFor h q.1 q.2 "ema" with _ | e
    · simp [he]
    · rw [he] at hm1
      simp [he, coarseRecord]
      exact hm1.2
  · rcases hc : latestFor h q.1 q.2 "macd" with _ | m
    · simp [hc]
    · rw [hc] at hm2
      simp [hc, coarseRecord]
      exact hm2.2

theorem replaceRow_map_coreOf (l : List TimeframeRow) (s t : String)
    (n row : TimeframeRow)
    (hfound : findRow l s t = some row)
    (hnodup : (l.map rowKey).Nodup)
    (hcore : coreOf n = coreOf row) :
    (replaceRow l s t n).map coreOf = l.map coreOf := by
  obtain ⟨hrowmem, hrowsym, hrowtf⟩ := findRow_some _ _ _ _ hfound
  simp only [replaceRow, List.map_map]
  apply List.map_congr_left
  intro r hr
  simp only [Function.comp]
  by_cases hp : (r.symbol == s && r.timeframe == t) = true
  · rw [if_pos hp]
    simp only [Bool.and_eq_true, beq_iff_eq] at hp
    have hkeyeq : rowKey r = rowKey row := by
      simp [rowKey, hp.1, hp.2, hrowsym, hrowtf]
    have : r = row := List.inj_on_of_nodup_map hnodup hr hrowmem hkeyeq
    rw [this, hcore]
  · rw [if_neg hp]

theorem insCore_eq_coreOf (h : List StateChangeRecord) (r : TimeframeRow)
    (hu : r.symbol = pyUpper r.symbol ∧ r.timeframe = pyUpper r.timeframe)
    (hm : RowMatch h r) : insCore h (rowKey r) = coreOf r := by
  have hm1 := hm.1
  have hm2 := hm.2
  simp only [insCore, coreOf, rowKey, CoreView.mk.injEq]
  refine ⟨hu.1.symm, hu.2.symm, ?_, ?_, ?_, ?_⟩
  · rcases he : latestFor h r.symbol r.timeframe "ema" with _ | e
    · rw [he] at hm1
      exact hm1.1.symm
    · rw [he] at hm1
      exact hm1.1
  · rcases hc : latestFor h r.symbol r.timeframe "macd" with _ | m
    · rw [hc] at hm2
      exact hm2.1.symm
    · rw [hc] at hm2
      exact hm2.1
  · rcases he : latestFor h r.symbol r.timeframe "ema" with _ | e
    · rw [he] at hm1
      exact hm1.2.symm
    · rw [he] at hm1
      exact hm1.2
  · rcases hc : latestFor h r.symbol r.timeframe "macd" with _ | m
    · rw [hc] at hm2
      exact hm2.2.symm
    · rw [hc] at hm2
      exact hm2.2

theorem filter_symbol_map_core (l : List TimeframeRow) (s : String) :
    (l.filter (fun r => r.symbol == s)).map coreOf
      = (l.map coreOf).filter (fun c => c.symbol == s) := by
  induction l with
  | nil => rfl
  | cons r rest ih =>
    simp only [List.filter_cons, List.map_cons]
    have hcs : ((coreOf r).symbol == s) = (r.symbol == s) := rfl
    rw [hcs]
    by_cases hp : (r.symbol == s) = true
    · simp only [hp, if_true, List.map_cons, ih]
    · simp only [Bool.not_eq_true] at hp
      simp only [hp, Bool.false_eq_true, if_false, ih]

theorem filter_rank_map_core (l : List TimeframeRow) (k : Nat) :
    (l.filter (fun r => tfRank r.timeframe == k)).map coreOf
      = (l.map coreOf).filter (fun c => tfRank c.timeframe == k) := by
  induction l with
  | nil => rfl
  | cons r rest ih =>
    simp only [List.filter_cons, List.map_cons]
    have hcs : ((tfRank (coreOf r).timeframe) == k) = ((tfRank r.timeframe) == k) := rfl
    rw [hcs]
    by_cases hp : ((tfRank r.timeframe) == k) = true
    · simp only [hp, if_true, List.map_cons, ih]
    · simp only [Bool.not_eq_true] at hp
      simp only [hp, Bool.false_eq_true, if_false, ih]

theorem gas_core_congr (st1 st2 : Store) (sym : String)
    (hc : st1.states.map coreOf = st2.states.map coreOf) :
    (get_all_states st1 sym).map coreOf = (get_all_states st2 sym).map coreOf := by
  have e1 : ∀ (l : List TimeframeRow) (k : Nat),
      ((l.filter (fun r => r.symbol == pyUpper sym)).filter
        (fun r => tfRank r.timeframe == k)).map coreOf
      = ((l.map coreOf).filter (fun c => c.symbol == pyUpper sym)).filter
        (fun c => tfRank c.timeframe == k) := by
    intro l k
    rw [filter_rank_map_core, filter_symbol_map_core]
  simp only [get_all_states, sortByRank, List.map_flatMap, e1, hc]

theorem boot_fold_insert_with
    (pick : List StateChangeRecord → Option StateChangeRecord)
    (sec : Nat → Nat) (h ch : List StateChangeRecord)
    (hbridge : ∀ s t c, latestWith pick ch s t c
      = (latestFor h s t c).map (coarseRecord sec)) :
    ∀ (Q : List (String × String)) (A : Store),
    (∀ q ∈ Q, q.1 = pyUpper q.1 ∧ q.2 = pyUpper q.2) →
    (∀ q ∈ Q, q ∉ A.states.map rowKey) →
    Q.Nodup →
    ((Q.foldl (bootPairStepWith pick ch) A).states.map coreOf
      = A.states.map coreOf ++ Q.map (fun q => insCore h q)) ∧
    ((Q.foldl (bootPairStepWith pick ch) A).states.map rowKey
      = A.states.map rowKey ++ Q) ∧
    ((∀ r ∈ A.states, RowMatch h r) →
      ∀ r ∈ (Q.foldl (bootPairStepWith pick ch) A).states, RowMatch h r) ∧
    (Q.foldl (bootPairStepWith pick ch) A).history = A.history := by
  intro Q
  induction Q with
  | nil =>
    intro A hupper hnot hnodup
    simp
  | cons q Qr ih =>
    intro A hupper hnot hnodup
    have hq := hupper q (List.mem_cons_self q Qr)
    have hfr : findRow A.states (pyUpper q.1) (pyUpper q.2) = none := by
      rw [← hq.1, ← hq.2]
      apply (findRow_none_iff _ _ _).mpr
      exact hnot q (List.mem_cons_self q Qr)
    have hstep := bootPairStepWith_insert pick ch A q hfr
    simp only [List.foldl_cons, hstep]
    have hkey : rowKey (bootInsRowWith pick ch q A.clock) = q := by
      simp [rowKey, bootInsRowWith, ← hq.1, ← hq.2]
    have ihres := ih { A with
        states := A.states ++ [bootInsRowWith pick ch q A.clock],
        clock := A.clock + 1 }
      (fun p hp => hupper p (List.mem_cons_of_mem q hp))
      (by
        intro p hp
        simp only [List.map_append, List.mem_append]
        rintro (hmem | hmem)
        · exact hnot p (List.mem_cons_of_mem q hp) hmem
        · simp only [List.map_cons, List.map_nil, List.mem_singleton] at hmem
          rw [hkey] at hmem
          have hq_not := (List.nodup_cons.mp hnodup).1
          exact hq_not (hmem ▸ hp))
      (List.Nodup.of_cons hnodup)
    obtain ⟨ih1, ih2, ih3, ih4⟩ := ihres
    refine ⟨?_, ?_, ?_, ?_⟩
    · rw [ih1]
      simp only [List.map_append, List.map_cons, List.map_nil]
      rw [coreOf_bootInsRowWith pick sec h ch hbridge q A.clock]
      simp
    · rw [ih2]
      simp only [List.map_append, List.map_cons, List.map_nil, hkey]
      simp
    · intro hbase r hr
      apply ih3 ?_ r hr
      intro r2 hr2
      rcases List.mem_append.mp hr2 with hr2 | hr2
      · exact hbase r2 hr2
      · rcases List.mem_singleton.mp hr2 with rfl
        exact RowMatch_bootInsRowWith pick sec h ch hbridge q A.clock hq.1 hq.2
    · rw [ih4]

theorem boot_fold_update_with
    (pick : List StateChangeRecord → Option StateChangeRecord)
    (sec : Nat → Nat) (h ch : List StateChangeRecord)
    (hbridge : ∀ s t c, latestWith pick ch s t c
      = (latestFor h s t c).map (coarseRecord sec)) :
    ∀ (Q : List (String × String)) (A : Store),
    (∀ q ∈ Q, q.1 = pyUpper q.1 ∧ q.2 = pyUpper q.2) →
    (∀ q ∈ Q, q ∈ A.states.map rowKey) →
    (∀ r ∈ A.states, RowMatch h r) →
    (A.states.map rowKey).Nodup →
    (Q.foldl (bootPairStepWith pick ch) A).states.map coreOf
      = A.states.map coreOf := by
  intro Q
  induction Q with
  | nil =>
    intro A _ _ _ _
    rfl
  | cons q Qr ih =>
    intro A hupper hmem hmatch hnodup
    have hq := hupper q (List.mem_cons_self q Qr)
    have hqmem := hmem q (List.mem_cons_self q Qr)
    obtain ⟨row, hfr⟩ := findRow_isSome_of_mem A.states q.1 q.2 hqmem
    have hfr2 : findRow A.states (pyUpper q.1) (pyUpper q.2) = some row := by
      rw [← hq.1, ← hq.2]
      exact hfr
    obtain ⟨hrowmem, hrowsym, hrowtf⟩ := findRow_some _ _ _ _ hfr
    simp only [List.foldl_cons]
    by_cases hsome : ((latestWith pick ch q.1 q.2 "ema").isSome ||
        (latestWith pick ch q.1 q.2 "macd").isSome) = true
    · have hstep := bootPairStepWith_update pick ch A q row hfr2 hsome
      rw [hstep]
      have hcore : coreOf (bootUpdRowWith pick ch q row A.clock) = coreOf row :=
        core_bootUpdRowWith pick sec h ch hbridge q row A.clock hrowsym hrowtf
          (hmatch row hrowmem)
      have hmapcore : (replaceRow A.states (pyUpper q.1) (pyUpper q.2)
          (bootUpdRowWith pick ch q row A.clock)).map coreOf
            = A.states.map coreOf := by
        rw [← hq.1, ← hq.2]
        exact replaceRow_map_coreOf A.states q.1 q.2 _ row hfr hnodup hcore
      have hmapkey : (replaceRow A.states (pyUpper q.1) (pyUpper q.2)
          (bootUpdRowWith pick ch q row A.clock)).map rowKey
            = A.states.map rowKey := by
        rw [← hq.1, ← hq.2]
        exact replaceRow_map_rowKey A.states q.1 q.2 _
          (by simp [bootUpdRowWith, hrowsym]) (by simp [bootUpdRowWith, hrowtf])
      have ihres := ih { A with
          states := replaceRow A.states (pyUpper q.1) (pyUpper q.2)
            (bootUpdRowWith pick ch q row A.clock),
          clock := A.clock + 1 }
        (fun p hp => hupper p (List.mem_cons_of_mem q hp))
        (by
          intro p hp
          show p ∈ (replaceRow A.states (pyUpper q.1) (pyUpper q.2)
            (bootUpdRowWith pick ch q row A.clock)).map rowKey
          rw [hmapkey]
          exact hmem p (List.mem_cons_of_mem q hp))
        (by
          intro r hr
          rcases mem_replaceRow _ _ _ _ r hr with rfl | ⟨hr2, _⟩
          · exact RowMatch_congr h _ row hcore (hmatch row hrowmem)
          · exact hmatch r hr2)
        (by
          show ((replaceRow A.states (pyUpper q.1) (pyUpper q.2)
            (bootUpdRowWith pick ch q row A.clock)).map rowKey).Nodup
          rw [hmapkey]
          exact hnodup)
      rw [ihres]
      exact hmapcore
    · rw [bootPairStepWith_skip pick ch A q row hfr2 (by
        rw [Bool.eq_false_iff]
        exact hsome)]
      exact ih A (fun p hp => hupper p (List.mem_cons_of_mem q hp))
        (fun p hp => hmem p (List.mem_cons_of_mem q hp)) hmatch hnodup

/-! ### Claim C4: bootstrap recovery -/

/-- Counterexample to C4: after one recorded event, wiping the state rows
and running `bootstrap_from_history` does not restore `get_all_states`
exactly — the restored `last_ema_update` is the history record's timestamp
(a later clock reading than the original `datetime.now()` value) and
`created_at`/`updated_at` are stamped at recovery time, so the snapshots
differ. -/
theorem claim_C4_counterexample :
    get_all_states
        (bootstrap_from_history (wipeStates
          (update_timeframe_state emptyStore "SPY" "5MIN" "ema" "bullish"
            (some 450)).2)) "SPY"
      ≠ get_all_states
          (update_timeframe_state emptyStore "SPY" "5MIN" "ema" "bullish"
            (some 450)).2 "SPY" := by
  decide

/-- When every write lands in the same wall-clock second (`sec` constant),
the two EMA history records of (SPY, 5MIN) persist tied timestamps, and
the earliest-preferring resolver — one of the behaviours the query is
allowed to exhibit on a tie — makes the bootstrap restore the stale
BULLISH status and price instead of the final BEARISH ones.  The
tie-freedom hypothesis of the recovery theorem is therefore necessary. -/
theorem bootstrap_tie_restores_stale :
    (get_all_states (bootstrap_from_history_with sqlPickEarliest
        (wipeStates (coarseStore (fun _ => 0)
          (replay [⟨"SPY", "5MIN", "ema", "bullish", some 450⟩,
                   ⟨"SPY", "5MIN", "ema", "bearish", some 449⟩])))) "SPY").map
        coreOf
      ≠ (get_all_states (coarseStore (fun _ => 0)
          (replay [⟨"SPY", "5MIN", "ema", "bullish", some 450⟩,
                   ⟨"SPY", "5MIN", "ema", "bearish", some 449⟩])) "SPY").map
        coreOf := by
  decide

/-- C4 (amended): replay any sequence of `update_timeframe_state` calls
from an empty store and persist it under any monotone tick-to-wall-clock
map.  If no two history records of the same (symbol, timeframe, indicator)
share a persisted timestamp, then wiping the state rows and running the
bootstrap — under every tie-break behaviour the `ORDER BY timestamp DESC
LIMIT 1` query is allowed to exhibit — restores, for every symbol, a
`get_all_states` listing that agrees with the pre-wipe snapshot on every
timestamp-free field (symbol, timeframe, both indicator statuses and both
last prices), and running the bootstrap twice yields the same
timestamp-free state as running it once; the rebuild reads only the
history table.  The wall-clock fields are re-stamped by recovery and are
not restored exactly, and when same-key records do tie the query may
return a stale record (`bootstrap_tie_restores_stale`), so neither
restriction can be dropped. -/
theorem claim_C4_bootstrap_restore (events : List EventIn) (symbol : String)
    (sec : Nat → Nat)
    (pick : List StateChangeRecord → Option StateChangeRecord)
    (hmono : Monotone sec) (hpick : ValidResolver pick)
    (htie : TieFree sec (replay events).history) :
    ((get_all_states (bootstrap_from_history_with pick
        (wipeStates (coarseStore sec (replay events)))) symbol).map coreOf
      = (get_all_states (coarseStore sec (replay events)) symbol).map coreOf) ∧
    ((get_all_states (bootstrap_from_history_with pick
        (bootstrap_from_history_with pick
          (wipeStates (coarseStore sec (replay events))))) symbol).map coreOf
      = (get_all_states (bootstrap_from_history_with pick
          (wipeStates (coarseStore sec (replay events)))) symbol).map coreOf) := by
  have hinv := replay_inv events
  set st := replay events with hst
  have hbridge : ∀ s t c, latestWith pick (coarseHistory sec st.history) s t c
      = (latestFor st.history s t c).map (coarseRecord sec) :=
    fun s t c => latestWith_coarse pick sec st.history hpick hmono htie s t c
  have hupperP : ∀ q ∈ distinctPairs st.history,
      q.1 = pyUpper q.1 ∧ q.2 = pyUpper q.2 := by
    intro q hq
    obtain ⟨r, hr, hkey⟩ := (mem_distinctPairs _ _).mp hq
    have hru := hinv.hist_upper r hr
    constructor
    · rw [← hkey]
      exact hru.1
    · rw [← hkey]
      exact hru.2
  have hb1 := boot_fold_insert_with pick sec st.history
    (coarseHistory sec st.history) hbridge (distinctPairs st.history)
    (wipeStates (coarseStore sec st)) hupperP
    (by
      intro q hq
      simp [wipeStates, coarseStore])
    (distinctPairs_nodup _)
  obtain ⟨hb1core, hb1keys, hb1match, hb1hist⟩ := hb1
  have hboot1 : bootstrap_from_history_with pick
        (wipeStates (coarseStore sec st))
      = (distinctPairs st.history).foldl
          (bootPairStepWith pick (coarseHistory sec st.history))
          (wipeStates (coarseStore sec st)) := by
    show (distinctPairs (coarseHistory sec st.history)).foldl
      (bootPairStepWith pick (coarseHistory sec st.history))
      (wipeStates (coarseStore sec st)) = _
    rw [distinctPairs_coarse]
  have hcoreB : (bootstrap_from_history_with pick
      (wipeStates (coarseStore sec st))).states.map coreOf
      = st.states.map coreOf := by
    rw [hboot1, hb1core]
    show ([] : List TimeframeRow).map coreOf ++ _ = _
    rw [List.map_nil, List.nil_append, hinv.pairs_eq, List.map_map]
    apply List.map_congr_left
    intro r hr
    exact insCore_eq_coreOf st.history r (hinv.rows_upper r hr)
      (hinv.rows_match r hr)
  refine ⟨?_, ?_⟩
  · exact gas_core_congr _ _ symbol (by
      rw [hcoreB, coarseStore_states_core])
  · have hBhist : (bootstrap_from_history_with pick
        (wipeStates (coarseStore sec st))).history
        = coarseHistory sec st.history := by
      rw [hboot1]
      exact hb1hist
    have hBkeys : (bootstrap_from_history_with pick
        (wipeStates (coarseStore sec st))).states.map rowKey
        = distinctPairs st.history := by
      rw [hboot1, hb1keys]
      show ([] : List TimeframeRow).map rowKey ++ _ = _
      rw [List.map_nil, List.nil_append]
    have hBmatch : ∀ r ∈ (bootstrap_from_history_with pick
        (wipeStates (coarseStore sec st))).states, RowMatch st.history r := by
      rw [hboot1]
      apply hb1match
      intro r hr
      simp [wipeStates, coarseStore] at hr
    have hboot2 : bootstrap_from_history_with pick (bootstrap_from_history_with
        pick (wipeStates (coarseStore sec st)))
        = (distinctPairs st.history).foldl
            (bootPairStepWith pick (coarseHistory sec st.history))
            (bootstrap_from_history_with pick
              (wipeStates (coarseStore sec st))) := by
      show (distinctPairs (bootstrap_from_history_with pick
          (wipeStates (coarseStore sec st))).history).foldl
        (bootPairStepWith pick (bootstrap_from_history_with pick
          (wipeStates (coarseStore sec st))).history)
        (bootstrap_from_history_with pick (wipeStates (coarseStore sec st)))
        = _
      rw [hBhist, distinctPairs_coarse]
    have hcore2 : (bootstrap_from_history_with pick
        (bootstrap_from_history_with pick
          (wipeStates (coarseStore sec st)))).states.map coreOf
        = (bootstrap_from_history_with pick
            (wipeStates (coarseStore sec st))).states.map coreOf := by
      rw [hboot2]
      apply boot_fold_update_with pick sec st.history
        (coarseHistory sec st.history) hbridge (distinctPairs st.history)
        (bootstrap_from_history_with pick (wipeStates (coarseStore sec st)))
        hupperP
      · intro q hq
        rw [hBkeys]
        exact hq
      · exact hBmatch
      · rw [hBkeys]
        exact distinctPairs_nodup _
    exact gas_core_congr _ _ symbol hcore2

/-- Instantiates the recovery theorem at a concrete run: one event, the
identity tick-to-wall-clock map (every write in its own second, hence
tie-free) and the newest-preferring resolver. -/
theorem claim_C4_witness :
    (get_all_states (bootstrap_from_history_with sqlPickLatest
        (wipeStates (coarseStore id
          (replay [⟨"SPY", "5MIN", "ema", "bullish", some 450⟩])))) "SPY").map
        coreOf
      = (get_all_states (coarseStore id
          (replay [⟨"SPY", "5MIN", "ema", "bullish", some 450⟩])) "SPY").map
        coreOf :=
  (claim_C4_bootstrap_restore [⟨"SPY", "5MIN", "ema", "bullish", some 450⟩]
    "SPY" id sqlPickLatest monotone_id sqlPickLatest_valid (by decide)).1

end Tradealerts
